import Mathlib

/-!
Verification of the Jurix courtroom-simulation core.

This file gives a shallow embedding, in Lean 4, of the parts of the Jurix
backend that the specification's claims are about:

* the transcript parser `parse_simulation_into_turns`
  (src/backend/routes/simulation_route.py),
* the result validator `validate_simulation_results` and the surrounding
  orchestration of `start_courtroom_simulation` (same file),
* the evidence-analysis stage `analyze_case_evidence` and its use in the route,
* the agent base class `BaseAgent` (respond, analyze_case, clear_memory,
  the static fallback generators) together with the role-specific fallback
  overrides of `ProsecutorAgent`, `DefenseAgent` and `JudgeAgent`
  (src/backend/services/ai_services/ai_agents/).

Python strings are modelled as `List Char`; Python dictionaries holding
heterogeneous values are modelled by the inductive `PyVal`.  External
collaborators (LLM providers, the document parser, the case store) enter as
explicit parameters, and `random.choice` is modelled by an explicit RNG draw
parameter.  All definitions are executable.
-/

namespace Jurix

/-- Shorthand used throughout: a Python string is a list of characters. -/
abbrev Str := List Char

/-- Convert a Lean string literal to the `List Char` model. -/
def chars (s : String) : Str := s.toList

/-- Python whitespace test (`str.strip` default char class, ASCII part). -/
def isSp (c : Char) : Bool :=
  c = ' ' || c = '\t' || c = '\n' || c = '\r' || c = '\x0b' || c = '\x0c'

/-- Python `str.strip()`: drop whitespace from both ends. -/
def pyStrip (l : Str) : Str :=
  ((l.dropWhile isSp).reverse.dropWhile isSp).reverse

/-- Python `str.upper()` (per-character, ASCII). -/
def pyUpper (l : Str) : Str := l.map Char.toUpper

/-- Python `str.lower()` (per-character, ASCII). -/
def pyLower (l : Str) : Str := l.map Char.toLower

/-- Python `transcript.split('\n')` and the splitting underlying it:
split a character list at every occurrence of the separator; adjacent
separators give empty fields, and the result is always nonempty. -/
def splitSep (sep : Char) : Str → List Str
  | [] => [[]]
  | c :: rest =>
    if c = sep then [] :: splitSep sep rest
    else
      match splitSep sep rest with
      | [] => [[c]]
      | x :: xs => (c :: x) :: xs

/-- Python `sep.join(pieces)` for a one-character separator. -/
def joinSep (sep : Char) : List Str → Str
  | [] => []
  | [x] => x
  | x :: xs => x ++ sep :: joinSep sep xs

/-- Python `sep.join(pieces)` for a multi-character separator. -/
def joinList (sep : Str) : List Str → Str
  | [] => []
  | [x] => x
  | x :: xs => x ++ sep ++ joinList sep xs

/-- Prefix test used by the substring search (mirrors Python's matching). -/
def leadsWith : Str → Str → Bool
  | [], _ => true
  | _ :: _, [] => false
  | a :: as, b :: bs => a = b && leadsWith as bs

/-- Python `haystack.find(pat)` returning the first match index, as an
`Option` (`none` for Python's `-1`); `pat in haystack` is `isSome`. -/
def findSub (pat : Str) : Str → Option Nat
  | [] => if pat = [] then some 0 else none
  | c :: rest =>
    if leadsWith pat (c :: rest) then some 0
    else (findSub pat rest).map (· + 1)

/-- Python truthiness of a string/list: nonempty. -/
def truthy (l : List α) : Bool := !l.isEmpty

/-! ### Lemmas about the string primitives -/

theorem leadsWith_iff (p l : Str) : leadsWith p l = true ↔ p <+: l := by
  induction p generalizing l with
  | nil => simp [leadsWith]
  | cons a as ih =>
    cases l with
    | nil => simp [leadsWith]
    | cons b bs =>
      simp only [leadsWith, Bool.and_eq_true, decide_eq_true_eq, ih]
      constructor
      · rintro ⟨rfl, t, rfl⟩
        exact ⟨t, rfl⟩
      · rintro ⟨t, h⟩
        injection h with h1 h2
        exact ⟨h1, t, h2⟩

theorem infix_cons_split {p : Str} {c : Char} {l : Str}
    (h : p <:+: c :: l) : p <+: c :: l ∨ p <:+: l := by
  obtain ⟨s, t, hst⟩ := h
  cases s with
  | nil => exact Or.inl ⟨t, by simpa using hst⟩
  | cons x xs =>
    injection hst with h1 h2
    exact Or.inr ⟨xs, t, h2⟩

theorem findSub_isSome_iff (pat l : Str) :
    (findSub pat l).isSome = true ↔ pat <:+: l := by
  induction l with
  | nil =>
    by_cases h : pat = [] <;> simp [findSub, h]
  | cons c rest ih =>
    cases hlw : leadsWith pat (c :: rest) with
    | true =>
      simp only [findSub, hlw, if_true, Option.isSome_some, true_iff]
      exact List.IsPrefix.isInfix ((leadsWith_iff _ _).mp hlw)
    | false =>
      have hstep : findSub pat (c :: rest) = (findSub pat rest).map (· + 1) := by
        simp [findSub, hlw]
      have hmap : ((findSub pat rest).map (· + 1)).isSome = (findSub pat rest).isSome := by
        cases findSub pat rest <;> rfl
      rw [hstep, hmap, ih]
      constructor
      · intro hi
        obtain ⟨s, t, hst⟩ := hi
        exact ⟨c :: s, t, by rw [← hst]; rfl⟩
      · intro hi
        rcases infix_cons_split hi with hp | hi2
        · exact absurd ((leadsWith_iff _ _).mpr hp) (by simp [hlw])
        · exact hi2

theorem findSub_eq_none_iff (pat l : Str) :
    findSub pat l = none ↔ ¬ pat <:+: l := by
  rw [← findSub_isSome_iff]
  cases findSub pat l <;> simp

theorem findSub_of_lead {pat l : Str} (h : leadsWith pat l = true) :
    findSub pat l = some 0 := by
  cases l with
  | nil =>
    have : pat = [] := by
      cases pat with
      | nil => rfl
      | cons a as => simp [leadsWith] at h
    simp [findSub, this]
  | cons c rest => simp [findSub, h]

/-- The central substring decomposition: a pattern that avoids the separator
character cannot straddle it, so a match in `a ++ sep :: b` lies wholly in
`a` or wholly in `b`. -/
theorem infix_append_sep {pat a b : Str} {sep : Char}
    (hne : pat ≠ []) (hsep : sep ∉ pat)
    (h : pat <:+: a ++ sep :: b) : pat <:+: a ∨ pat <:+: b := by
  obtain ⟨s, t, hst⟩ := h
  rw [List.append_assoc] at hst
  rcases List.append_eq_append_iff.mp hst with ⟨a', ha, hrest⟩ | ⟨c', _, hrest⟩
  · rcases List.append_eq_append_iff.mp hrest with ⟨d, hd, _⟩ | ⟨d, hp, hd⟩
    · exact Or.inl ⟨s, d, by rw [ha, hd, List.append_assoc]⟩
    · cases d with
      | nil =>
        refine Or.inl ⟨s, [], ?_⟩
        rw [List.append_nil] at hp
        rw [List.append_nil, ha, hp]
      | cons e d' =>
        exfalso
        injection hd with h1 h2
        apply hsep
        rw [hp, ← h1]
        exact List.mem_append_right _ (List.mem_cons_self _ _)
  · cases c' with
    | nil =>
      exfalso
      simp only [List.nil_append] at hrest
      cases pat with
      | nil => exact hne rfl
      | cons p ps =>
        injection hrest with h1 h2
        exact hsep (h1 ▸ List.mem_cons_self _ _)
    | cons e c'' =>
      injection hrest with h1 h2
      exact Or.inr ⟨c'', t, by rw [h2]; simp⟩

theorem infix_map {a b : Str} (f : Char → Char) (h : a <:+: b) :
    a.map f <:+: b.map f := by
  obtain ⟨s, t, hst⟩ := h
  exact ⟨s.map f, t.map f, by rw [← hst]; simp⟩

theorem mem_of_occurs {a b : Str} {c : Char} (h : a <:+: b) (hc : c ∈ a) : c ∈ b := by
  obtain ⟨s, t, hst⟩ := h
  rw [← hst]
  exact List.mem_append_left _ (List.mem_append_right _ hc)

theorem pyStrip_isInfixOf (l : Str) : pyStrip l <:+: l := by
  have h1 : l.dropWhile isSp <:+ l := List.dropWhile_suffix _
  have h2 : ((l.dropWhile isSp).reverse.dropWhile isSp) <:+ (l.dropWhile isSp).reverse :=
    List.dropWhile_suffix _
  have h3 : pyStrip l <+: l.dropWhile isSp := by
    rw [pyStrip]
    rw [← List.reverse_suffix]
    simpa using h2
  exact List.IsInfix.trans (List.IsPrefix.isInfix h3) (List.IsSuffix.isInfix h1)

theorem head_dropWhile_not {p : Char → Bool} {l : Str} {c : Char}
    (h : (l.dropWhile p).head? = some c) : p c = false := by
  induction l with
  | nil => simp [List.dropWhile] at h
  | cons x xs ih =>
    rw [List.dropWhile_cons] at h
    by_cases hx : p x = true
    · rw [if_pos hx] at h; exact ih h
    · rw [if_neg hx] at h
      rw [List.head?_cons, Option.some.injEq] at h
      subst h
      simpa using hx

/-- Heads and last characters of a stripped string are never whitespace. -/
def EdgeClean (l : Str) : Prop :=
  (∀ c, l.head? = some c → isSp c = false) ∧
  (∀ c, l.getLast? = some c → isSp c = false)

theorem edgeClean_pyStrip (l : Str) : EdgeClean (pyStrip l) := by
  constructor
  · intro c hc
    rw [pyStrip, List.head?_reverse] at hc
    obtain ⟨s, hs⟩ : ((l.dropWhile isSp).reverse.dropWhile isSp) <:+ (l.dropWhile isSp).reverse :=
      List.dropWhile_suffix _
    have hlast : (l.dropWhile isSp).reverse.getLast? = some c := by
      rw [← hs, List.getLast?_append, hc]
      rfl
    rw [List.getLast?_reverse] at hlast
    exact head_dropWhile_not hlast
  · intro c hc
    rw [pyStrip, List.getLast?_reverse] at hc
    exact head_dropWhile_not hc

theorem dropWhile_eq_self_of_head {p : Char → Bool} {l : Str}
    (h : ∀ c, l.head? = some c → p c = false) : l.dropWhile p = l := by
  cases l with
  | nil => rfl
  | cons x xs =>
    rw [List.dropWhile_cons, if_neg]
    simp [h x rfl]

theorem pyStrip_eq_self {l : Str} (h : EdgeClean l) : pyStrip l = l := by
  rw [pyStrip, dropWhile_eq_self_of_head h.1, dropWhile_eq_self_of_head, List.reverse_reverse]
  intro c hc
  rw [List.head?_reverse] at hc
  exact h.2 c hc

theorem pyStrip_idem (l : Str) : pyStrip (pyStrip l) = pyStrip l :=
  pyStrip_eq_self (edgeClean_pyStrip l)

theorem splitSep_ne_nil (sep : Char) (l : Str) : splitSep sep l ≠ [] := by
  cases l with
  | nil => simp [splitSep]
  | cons c rest =>
    rw [splitSep]
    by_cases h : c = sep
    · simp [h]
    · rw [if_neg h]
      cases splitSep sep rest <;> simp

theorem splitSep_sep_notMem (sep : Char) (l : Str) :
    ∀ x ∈ splitSep sep l, sep ∉ x := by
  induction l with
  | nil =>
    intro x hx
    simp [splitSep] at hx
    simp [hx]
  | cons c rest ih =>
    intro x hx
    rw [splitSep] at hx
    by_cases h : c = sep
    · rw [if_pos h] at hx
      rcases List.mem_cons.mp hx with rfl | hmem
      · simp
      · exact ih x hmem
    · rw [if_neg h] at hx
      rcases hsplit : splitSep sep rest with _ | ⟨y, ys⟩
      · exact absurd hsplit (splitSep_ne_nil sep rest)
      · rw [hsplit] at hx
        rcases List.mem_cons.mp hx with rfl | hmem
        · intro hcmem
          rcases List.mem_cons.mp hcmem with rfl | hmem2
          · exact h rfl
          · exact ih y (hsplit ▸ List.mem_cons_self _ _) hmem2
        · exact ih x (hsplit ▸ List.mem_cons_of_mem _ hmem)

theorem splitSep_eq_single {sep : Char} {x : Str} (h : sep ∉ x) :
    splitSep sep x = [x] := by
  induction x with
  | nil => rfl
  | cons c rest ih =>
    have hc : ¬ c = sep := fun hc => h (hc ▸ List.mem_cons_self _ _)
    have hrest : sep ∉ rest := fun hm => h (List.mem_cons_of_mem _ hm)
    rw [splitSep, if_neg hc, ih hrest]

theorem splitSep_append {sep : Char} {x t : Str} (h : sep ∉ x) :
    splitSep sep (x ++ sep :: t) = x :: splitSep sep t := by
  induction x with
  | nil =>
    rw [List.nil_append, splitSep, if_pos rfl]
  | cons c rest ih =>
    have hc : ¬ c = sep := fun hc => h (hc ▸ List.mem_cons_self _ _)
    have hrest : sep ∉ rest := fun hm => h (List.mem_cons_of_mem _ hm)
    rw [List.cons_append, splitSep, if_neg hc, ih hrest]

theorem joinSep_cons_cons (sep : Char) (x y : Str) (ys : List Str) :
    joinSep sep (x :: y :: ys) = x ++ sep :: joinSep sep (y :: ys) := rfl

theorem splitSep_joinSep {sep : Char} {lines : List Str} (hne : lines ≠ [])
    (h : ∀ x ∈ lines, sep ∉ x) : splitSep sep (joinSep sep lines) = lines := by
  induction lines with
  | nil => exact absurd rfl hne
  | cons x rest ih =>
    cases rest with
    | nil =>
      rw [joinSep]
      exact splitSep_eq_single (h x (List.mem_cons_self _ _))
    | cons y ys =>
      rw [joinSep_cons_cons, splitSep_append (h x (List.mem_cons_self _ _))]
      rw [ih (by simp) (fun z hz => h z (List.mem_cons_of_mem _ hz))]

theorem joinSep_notMem {sep c : Char} {pieces : List Str}
    (hc : c ≠ sep) (h : ∀ x ∈ pieces, c ∉ x) : c ∉ joinSep sep pieces := by
  induction pieces with
  | nil => simp [joinSep]
  | cons x rest ih =>
    cases rest with
    | nil => exact h x (List.mem_cons_self _ _)
    | cons y ys =>
      rw [joinSep_cons_cons]
      intro hmem
      rcases List.mem_append.mp hmem with hx | hs
      · exact h x (List.mem_cons_self _ _) hx
      · rcases List.mem_cons.mp hs with rfl | hj
        · exact hc rfl
        · exact ih (fun z hz => h z (List.mem_cons_of_mem _ hz)) hj

theorem joinSep_not_isInfixOf {sep : Char} {pat : Str} {pieces : List Str}
    (hne : pat ≠ []) (hsep : sep ∉ pat)
    (h : ∀ x ∈ pieces, ¬ pat <:+: x) : ¬ pat <:+: joinSep sep pieces := by
  induction pieces with
  | nil =>
    intro hi
    rw [joinSep] at hi
    obtain ⟨s, t, hst⟩ := hi
    have : pat = [] := by
      rcases List.append_eq_nil.mp hst with ⟨h1, _⟩
      exact (List.append_eq_nil.mp h1).2
    exact hne this
  | cons x rest ih =>
    cases rest with
    | nil => exact h x (List.mem_cons_self _ _)
    | cons y ys =>
      rw [joinSep_cons_cons]
      intro hi
      rcases infix_append_sep hne hsep hi with hx | hj
      · exact h x (List.mem_cons_self _ _) hx
      · exact ih (fun z hz => h z (List.mem_cons_of_mem _ hz)) hj

theorem joinSep_map {sep : Char} {f : Char → Char} (hf : f sep = sep)
    (pieces : List Str) :
    (joinSep sep pieces).map f = joinSep sep (pieces.map (List.map f)) := by
  induction pieces with
  | nil => rfl
  | cons x rest ih =>
    cases rest with
    | nil => rfl
    | cons y ys =>
      show (x ++ sep :: joinSep sep (y :: ys)).map f = _
      rw [List.map_append, List.map_cons, hf, ih]
      rfl

theorem joinSep_head (sep : Char) {p : Str} (rest : List Str) (h : p ≠ []) :
    (joinSep sep (p :: rest)).head? = p.head? := by
  cases rest with
  | nil => rfl
  | cons y ys =>
    rw [joinSep_cons_cons, List.head?_append]
    cases p with
    | nil => exact absurd rfl h
    | cons a as => rfl

theorem joinSep_ne_nil (sep : Char) {p : Str} (rest : List Str) (h : p ≠ []) :
    joinSep sep (p :: rest) ≠ [] := by
  intro hemp
  have := joinSep_head sep rest h
  rw [hemp] at this
  cases p with
  | nil => exact h rfl
  | cons a as => simp at this

theorem joinSep_getLast (sep : Char) {pieces : List Str}
    (hne : pieces ≠ []) (h : ∀ p ∈ pieces, p ≠ []) :
    ∃ q ∈ pieces, (joinSep sep pieces).getLast? = q.getLast? := by
  induction pieces with
  | nil => exact absurd rfl hne
  | cons x rest ih =>
    cases rest with
    | nil => exact ⟨x, List.mem_cons_self _ _, rfl⟩
    | cons y ys =>
      obtain ⟨q, hq, heq⟩ := ih (by simp) (fun z hz => h z (List.mem_cons_of_mem _ hz))
      refine ⟨q, List.mem_cons_of_mem _ hq, ?_⟩
      rw [joinSep_cons_cons, ← heq]
      have hJ : joinSep sep (y :: ys) ≠ [] :=
        joinSep_ne_nil sep ys (h y (List.mem_cons_of_mem _ (List.mem_cons_self _ _)))

      have : x ++ sep :: joinSep sep (y :: ys) = (x ++ [sep]) ++ joinSep sep (y :: ys) := by
        simp
      rw [this, List.getLast?_append]
      rcases hJl : (joinSep sep (y :: ys)).getLast? with _ | q'
      · rw [List.getLast?_eq_none_iff] at hJl
        exact absurd hJl hJ
      · rfl

theorem joinSep_edgeClean {pieces : List Str}
    (h : ∀ p ∈ pieces, p ≠ [] ∧ EdgeClean p) :
    EdgeClean (joinSep ' ' pieces) := by
  cases pieces with
  | nil => exact ⟨by intro c hc; simp [joinSep] at hc, by intro c hc; simp [joinSep] at hc⟩
  | cons x rest =>
    constructor
    · intro c hc
      rw [joinSep_head ' ' rest (h x (List.mem_cons_self _ _)).1] at hc
      exact (h x (List.mem_cons_self _ _)).2.1 c hc
    · intro c hc
      obtain ⟨q, hq, heq⟩ := joinSep_getLast ' ' (by simp) (fun p hp => (h p hp).1)
      rw [heq] at hc
      exact (h q hq).2.2 c hc

/-! ### The transcript parser (`parse_simulation_into_turns`)

Embedding of `parse_simulation_into_turns` from
`src/backend/routes/simulation_route.py` lines 32-96.  The Python mutable
loop becomes a fold over the split lines with an explicit state. -/

/-- Python `f"{n:02d}"` for a natural number: decimal digits padded with a
leading zero to width two. -/
def fmt2 (n : Nat) : Str :=
  if n < 10 then '0' :: Nat.toDigits 10 n else Nat.toDigits 10 n

/-- The synthetic timestamp of turn `i`:
`f"{9 + (turn_number // 4):02d}:{(turn_number * 15) % 60:02d}:00"`. -/
def timestampFor (i : Nat) : Str :=
  fmt2 (9 + i / 4) ++ ':' :: (fmt2 ((i * 15) % 60) ++ chars ":00")

/-- One structured turn of the replayable transcript. -/
structure Turn where
  turn_number : Nat
  role : Str
  message : Str
  timestamp : Str
  duration : Nat
deriving DecidableEq

/-- The turn dictionary appended by the parser: timestamp and duration are
computed from the turn index and the message length exactly as in the
source (`len(message_text) // 20 + 3`). -/
def mkTurn (n : Nat) (role msg : Str) : Turn :=
  { turn_number := n, role := role, message := msg,
    timestamp := timestampFor n, duration := msg.length / 20 + 3 }

/-- The `role_markers` dict, in insertion order (Python dicts preserve it). -/
def roleMarkers : List (Str × Str) :=
  [(chars "JUDGE:", chars "Judge"),
   (chars "PROSECUTOR", chars "Prosecutor"),
   (chars "DEFENSE", chars "Defense"),
   (chars "WITNESS", chars "Witness"),
   (chars "COURT:", chars "Court")]

/-- The marker scan of the parser loop: first marker (in dict order) that is
a substring of the upper-cased line wins; the returned index is
`line.upper().find(marker) + len(marker)`, i.e. where the message starts. -/
def findRoleAux : List (Str × Str) → Str → Option (Str × Nat)
  | [], _ => none
  | (marker, role) :: rest, up =>
    match findSub marker up with
    | some j => some (role, j + marker.length)
    | none => findRoleAux rest up

/-- The mutable loop variables of `parse_simulation_into_turns`. -/
structure ParseState where
  currentRole : Option Str
  currentMessage : List Str
  turnNumber : Nat
  turns : List Turn

/-- The "save previous turn" block (also used for the final turn): only a
state with a current role and a nonempty message list emits a turn, and the
turn counter advances only on an actual emission. -/
def emitTurn (st : ParseState) : ParseState :=
  match st.currentRole with
  | none => st
  | some role =>
    if st.currentMessage = [] then st
    else
      let messageText := pyStrip (joinSep ' ' st.currentMessage)
      if messageText = [] then st
      else { st with
               turns := st.turns ++ [mkTurn st.turnNumber role messageText],
               turnNumber := st.turnNumber + 1 }

/-- One iteration of the `for line in lines` loop. -/
def processLine (st : ParseState) (rawLine : Str) : ParseState :=
  let line := pyStrip rawLine
  if line = [] ∨ line.head? = some '=' ∨ line.head? = some '-' then st
  else
    match findRoleAux roleMarkers (pyUpper line) with
    | some (role, messageStart) =>
      let rest := pyStrip (line.drop messageStart)
      let st' := emitTurn st
      { st' with
          currentRole := some role,
          currentMessage := if rest = [] then [] else [rest] }
    | none =>
      match st.currentRole with
      | some _ =>
        if line = [] then st
        else { st with currentMessage := st.currentMessage ++ [line] }
      | none => st

def initParseState : ParseState := ⟨none, [], 0, []⟩

/-- `parse_simulation_into_turns(transcript)`. -/
def parse_simulation_into_turns (transcript : Str) : List Turn :=
  (emitTurn ((splitSep '\n' transcript).foldl processLine initParseState)).turns

example :
    (parse_simulation_into_turns
        (chars "JUDGE: Order.\nPROSECUTOR: We allege theft.\n")).map Turn.role =
      [chars "Judge", chars "Prosecutor"] := by decide

example :
    (parse_simulation_into_turns (chars "no markers at all\n\n-- separator")) = [] := by
  decide

/-! ### C4: timestamps and durations are pure functions of index and length -/

/-- Invariant of the parse loop: the turn counter equals the number of
emitted turns, and each emitted turn at (dense, zero-based) position `i`
carries `turn_number = i`, the synthetic timestamp of `i`, and the
length-derived duration. -/
def TurnsNumbered (st : ParseState) : Prop :=
  st.turnNumber = st.turns.length ∧
  ∀ i t, st.turns.get? i = some t →
    t.turn_number = i ∧ t.timestamp = timestampFor i ∧
    t.duration = t.message.length / 20 + 3

theorem turnsNumbered_emit {st : ParseState} (h : TurnsNumbered st) :
    TurnsNumbered (emitTurn st) := by
  obtain ⟨cr, cm, n, ts⟩ := st
  cases cr with
  | none => exact h
  | some role =>
    rw [emitTurn]
    dsimp only
    by_cases hcm : cm = []
    · rw [if_pos hcm]; exact h
    · rw [if_neg hcm]
      by_cases hmsg : pyStrip (joinSep ' ' cm) = []
      · rw [if_pos hmsg]; exact h
      · rw [if_neg hmsg]
        obtain ⟨hn, hts⟩ := h
        dsimp at hn hts ⊢
        refine ⟨by simp [hn], ?_⟩
        intro i t hget
        by_cases hi : i < ts.length
        · rw [List.get?_append hi] at hget
          exact hts i t hget
        · by_cases hieq : i = ts.length
          · subst hieq
            rw [List.get?_concat_length] at hget
            injection hget with hget
            subst hget
            subst hn
            exact ⟨rfl, rfl, rfl⟩
          · exfalso
            have hlen : (ts ++ [mkTurn n role (pyStrip (joinSep ' ' cm))]).length ≤ i := by
              rw [List.length_append, List.length_singleton]
              omega
            rw [List.get?_eq_none.mpr hlen] at hget
            exact Option.noConfusion hget

theorem turnsNumbered_process {st : ParseState} (h : TurnsNumbered st) (l : Str) :
    TurnsNumbered (processLine st l) := by
  rw [processLine]
  dsimp only
  split
  · exact h
  · split
    · exact turnsNumbered_emit h
    · split
      · split
        · exact h
        · exact h
      · exact h

theorem turnsNumbered_foldl (lines : List Str) (st : ParseState)
    (h : TurnsNumbered st) : TurnsNumbered (lines.foldl processLine st) := by
  induction lines generalizing st with
  | nil => exact h
  | cons l rest ih => exact ih _ (turnsNumbered_process h l)

/-- **C4.** For every transcript, the `i`-th emitted turn (0-based dense
index) carries `turn_number = i`, the synthetic timestamp
`f"{9 + i // 4:02d}:{(i * 15) % 60:02d}:00"` (a pure function of the
index), and the estimated duration `len(message) // 20 + 3` seconds (a pure
function of the message length) — independent of message content and of
wall-clock time. -/
theorem turn_timestamp_duration_pure (transcript : Str) (i : Nat) (t : Turn)
    (h : (parse_simulation_into_turns transcript).get? i = some t) :
    t.turn_number = i ∧ t.timestamp = timestampFor i ∧
    t.duration = t.message.length / 20 + 3 := by
  have hinv : TurnsNumbered
      (emitTurn ((splitSep '\n' transcript).foldl processLine initParseState)) :=
    turnsNumbered_emit
      (turnsNumbered_foldl _ _ ⟨rfl, by intro i t hget; simp [initParseState] at hget⟩)
  exact hinv.2 i t h

/-- Witness for C4 at the concrete transcript `"JUDGE: Order."`: turn 0 is
emitted with timestamp `09:00:00` and duration `3`. -/
theorem turn_timestamp_duration_pure_witness :
    (parse_simulation_into_turns (chars "JUDGE: Order.")).get? 0 =
      some (mkTurn 0 (chars "Judge") (chars "Order.")) ∧
    (mkTurn 0 (chars "Judge") (chars "Order.")).turn_number = 0 ∧
    (mkTurn 0 (chars "Judge") (chars "Order.")).timestamp = timestampFor 0 ∧
    (mkTurn 0 (chars "Judge") (chars "Order.")).duration =
      (mkTurn 0 (chars "Judge") (chars "Order.")).message.length / 20 + 3 :=
  ⟨by decide, turn_timestamp_duration_pure (chars "JUDGE: Order.") 0 _ (by decide)⟩

/-! ### C7: idempotence of the parser on its reconstructed output

Every turn the parser emits satisfies a structural invariant `GoodTurn`:
its role label comes from the marker table, its message is nonempty,
newline-free and whitespace-trimmed, and — because the marker scan takes
the first marker in dict order that occurs anywhere in the upper-cased
line — the upper-cased message contains no marker that precedes the
matched one in dict order. -/

def roleNames : List Str := roleMarkers.map Prod.snd

/-- Markers tried (and necessarily missed) before the one that maps to
role `r` in the `role_markers` dict order. -/
def earlierMarkers (r : Str) : List Str :=
  (roleMarkers.takeWhile (fun p => decide (p.2 ≠ r))).map Prod.fst

/-- No marker preceding `r`'s marker occurs in the upper-cased text. -/
def MarkerFree (r m : Str) : Prop :=
  ∀ μ ∈ earlierMarkers r, ¬ μ <:+: pyUpper m

def GoodTurn (t : Turn) : Prop :=
  t.role ∈ roleNames ∧ t.message ≠ [] ∧ '\n' ∉ t.message ∧
  EdgeClean t.message ∧ MarkerFree t.role t.message

theorem marker_facts : ∀ μ ∈ roleMarkers.map Prod.fst,
    μ ≠ [] ∧ ' ' ∉ μ ∧ '\n' ∉ μ := by decide

theorem earlierMarkers_subset (r : Str) :
    ∀ μ ∈ earlierMarkers r, μ ∈ roleMarkers.map Prod.fst := by
  intro μ hμ
  obtain ⟨p, hp, hpe⟩ := List.mem_map.mp hμ
  exact List.mem_map.mpr ⟨p, (List.takeWhile_sublist _).subset hp, hpe⟩

theorem findRoleAux_none {ms : List (Str × Str)} {up : Str}
    (h : findRoleAux ms up = none) :
    ∀ μ ∈ ms.map Prod.fst, findSub μ up = none := by
  induction ms with
  | nil => intro μ hμ; simp at hμ
  | cons p rest ih =>
    obtain ⟨μ₀, r₀⟩ := p
    intro μ hμ
    cases hfs : findSub μ₀ up with
    | some j =>
      simp only [findRoleAux, hfs] at h
      exact Option.noConfusion h
    | none =>
      simp only [findRoleAux, hfs] at h
      rcases List.mem_cons.mp hμ with rfl | hμ2
      · exact hfs
      · exact ih h μ hμ2

theorem findRoleAux_role_mem {ms : List (Str × Str)} {up r : Str} {k : Nat}
    (h : findRoleAux ms up = some (r, k)) : r ∈ ms.map Prod.snd := by
  induction ms with
  | nil => simp [findRoleAux] at h
  | cons p rest ih =>
    obtain ⟨μ₀, r₀⟩ := p
    cases hfs : findSub μ₀ up with
    | some j =>
      simp only [findRoleAux, hfs] at h
      injection h with h
      injection h with h1 h2
      simp [← h1]
    | none =>
      simp only [findRoleAux, hfs] at h
      exact List.mem_cons_of_mem _ (ih h)

theorem findRoleAux_earlier {ms : List (Str × Str)} {up r : Str} {k : Nat}
    (h : findRoleAux ms up = some (r, k)) :
    ∀ μ ∈ (ms.takeWhile (fun p => decide (p.2 ≠ r))).map Prod.fst,
      findSub μ up = none := by
  induction ms with
  | nil => intro μ hμ; simp at hμ
  | cons p rest ih =>
    obtain ⟨μ₀, r₀⟩ := p
    cases hfs : findSub μ₀ up with
    | some j =>
      simp only [findRoleAux, hfs] at h
      injection h with h
      injection h with h1 h2
      intro μ hμ
      rw [List.takeWhile_cons, if_neg (by simp [h1])] at hμ
      simp at hμ
    | none =>
      simp only [findRoleAux, hfs] at h
      intro μ hμ
      by_cases hr : r₀ = r
      · rw [List.takeWhile_cons, if_neg (by simp [hr])] at hμ
        simp at hμ
      · rw [List.takeWhile_cons, if_pos (by simp [hr]), List.map_cons] at hμ
        rcases List.mem_cons.mp hμ with rfl | hμ2
        · exact hfs
        · exact ih h μ hμ2

theorem markerFree_of_infix {r m m' : Str} (hsub : m' <:+: m)
    (h : MarkerFree r m) : MarkerFree r m' := by
  intro μ hμ hi
  exact h μ hμ (List.IsInfix.trans hi (infix_map Char.toUpper hsub))

theorem markerFree_join {r : Str} {pieces : List Str}
    (h : ∀ p ∈ pieces, MarkerFree r p) : MarkerFree r (joinSep ' ' pieces) := by
  intro μ hμ hi
  obtain ⟨hne, hsp, _⟩ := marker_facts μ (earlierMarkers_subset r μ hμ)
  rw [pyUpper, joinSep_map (by decide)] at hi
  refine joinSep_not_isInfixOf hne hsp ?_ hi
  intro x hx
  obtain ⟨p, hp, rfl⟩ := List.mem_map.mp hx
  exact h p hp μ hμ

/-- The parse-loop invariant behind `GoodTurn`. -/
def ParseInv (st : ParseState) : Prop :=
  (∀ t ∈ st.turns, GoodTurn t) ∧
  (∀ r, st.currentRole = some r →
    r ∈ roleNames ∧ ∀ p ∈ st.currentMessage, '\n' ∉ p ∧ MarkerFree r p)

theorem parseInv_emit {st : ParseState} (inv : ParseInv st) :
    ParseInv (emitTurn st) := by
  obtain ⟨cr, cm, n, ts⟩ := st
  cases cr with
  | none => exact inv
  | some r =>
    rw [emitTurn]
    dsimp only
    by_cases hcm : cm = []
    · rw [if_pos hcm]; exact inv
    · rw [if_neg hcm]
      by_cases hmsg : pyStrip (joinSep ' ' cm) = []
      · rw [if_pos hmsg]; exact inv
      · rw [if_neg hmsg]
        obtain ⟨hgood, hcur⟩ := inv
        obtain ⟨hrole, hpieces⟩ := hcur r rfl
        refine ⟨?_, hcur⟩
        intro t ht
        rcases List.mem_append.mp ht with hold | hnew
        · exact hgood t hold
        · rw [List.mem_singleton] at hnew
          subst hnew
          refine ⟨hrole, hmsg, ?_, edgeClean_pyStrip _, ?_⟩
          · intro hmem
            have hjoin : '\n' ∉ joinSep ' ' cm :=
              joinSep_notMem (by decide) (fun p hp => (hpieces p hp).1)
            exact hjoin (mem_of_occurs (pyStrip_isInfixOf _) hmem)
          · exact markerFree_of_infix (pyStrip_isInfixOf _)
              (markerFree_join (fun p hp => (hpieces p hp).2))

theorem parseInv_process {st : ParseState} (inv : ParseInv st)
    {rawLine : Str} (hnl : '\n' ∉ rawLine) :
    ParseInv (processLine st rawLine) := by
  have hlnl : '\n' ∉ pyStrip rawLine :=
    fun hm => hnl (mem_of_occurs (pyStrip_isInfixOf rawLine) hm)
  simp only [processLine]
  split
  · exact inv
  · split
    next role ms hfind =>
      have hrest : pyStrip ((pyStrip rawLine).drop ms) <:+: pyStrip rawLine :=
        List.IsInfix.trans (pyStrip_isInfixOf _)
          (List.IsSuffix.isInfix (List.drop_suffix _ _))
      refine ⟨(parseInv_emit inv).1, ?_⟩
      intro r hr
      injection hr with hr
      subst hr
      constructor
      · have := findRoleAux_role_mem hfind
        simpa [roleNames] using this
      · intro p hp
        split at hp
        · simp at hp
        · rw [List.mem_singleton] at hp
          subst hp
          constructor
          · exact fun hm => hlnl (mem_of_occurs hrest hm)
          · refine markerFree_of_infix hrest ?_
            intro μ hμ hi
            have hnone := findRoleAux_earlier hfind μ hμ
            rw [findSub_eq_none_iff] at hnone
            exact hnone hi
    next hfind =>
      split
      next r hcr =>
        split
        · exact inv
        next hline =>
          obtain ⟨hgood, hcur⟩ := inv
          refine ⟨hgood, ?_⟩
          intro r₂ hr₂
          obtain ⟨hrole, hpieces⟩ := hcur r₂ hr₂
          refine ⟨hrole, ?_⟩
          intro p hp
          rcases List.mem_append.mp hp with hold | hnew
          · exact hpieces p hold
          · rw [List.mem_singleton] at hnew
            subst hnew
            refine ⟨hlnl, ?_⟩
            intro μ hμ hi
            have hnone := findRoleAux_none hfind μ (earlierMarkers_subset r₂ μ hμ)
            rw [findSub_eq_none_iff] at hnone
            exact hnone hi
      next hcr => exact inv

theorem parseInv_foldl (lines : List Str) (st : ParseState) (h : ParseInv st)
    (hnl : ∀ l ∈ lines, '\n' ∉ l) : ParseInv (lines.foldl processLine st) := by
  induction lines generalizing st with
  | nil => exact h
  | cons l rest ih =>
    exact ih _ (parseInv_process h (hnl l (List.mem_cons_self _ _)))
      (fun x hx => hnl x (List.mem_cons_of_mem _ hx))

/-- Every turn the parser emits satisfies the structural invariant. -/
theorem goodTurn_parse (transcript : Str) :
    ∀ t ∈ parse_simulation_into_turns transcript, GoodTurn t := by
  have hinit : ParseInv initParseState :=
    ⟨by intro t ht; simp [initParseState] at ht,
     by intro r hr; simp [initParseState] at hr⟩
  exact (parseInv_emit (parseInv_foldl _ _ hinit
    (splitSep_sep_notMem '\n' transcript))).1

/-- Rebuild one emitted turn as the line `"<role>: <message>"`. -/
def reconstructLine (t : Turn) : Str := t.role ++ ':' :: ' ' :: t.message

/-- Rebuild a transcript from emitted turns by joining the rebuilt lines. -/
def reconstructTranscript (ts : List Turn) : Str :=
  joinSep '\n' (ts.map reconstructLine)

theorem getLast_append_ne {a m : Str} (hne : m ≠ []) :
    (a ++ m).getLast? = m.getLast? := by
  rw [List.getLast?_append]
  cases hm : m.getLast? with
  | none => exact absurd (List.getLast?_eq_none_iff.mp hm) hne
  | some q => rfl

theorem edgeClean_colon_space {m : Str} (h : EdgeClean m) (hne : m ≠ []) :
    EdgeClean (':' :: ' ' :: m) := by
  constructor
  · intro c hc
    injection hc with hc
    rw [← hc]
    decide
  · intro c hc
    have hsplit : (':' :: ' ' :: m) = [':', ' '] ++ m := rfl
    rw [hsplit, getLast_append_ne hne] at hc
    exact h.2 c hc

theorem pyStrip_space_cons (m : Str) : pyStrip (' ' :: m) = pyStrip m := by
  rw [pyStrip, pyStrip, List.dropWhile_cons, if_pos (by decide)]

theorem edgeClean_line {role m : Str} (c : Char)
    (hh : (role ++ ':' :: ' ' :: m).head? = some c) (hc : isSp c = false)
    (hm : EdgeClean m) (hne : m ≠ []) : EdgeClean (role ++ ':' :: ' ' :: m) := by
  constructor
  · intro d hd
    rw [hh] at hd
    injection hd with hd
    rw [← hd]
    exact hc
  · intro d hd
    have hsplit : role ++ ':' :: ' ' :: m = (role ++ [':', ' ']) ++ m := by simp
    rw [hsplit, getLast_append_ne hne] at hd
    exact hm.2 d hd

theorem skip_of_head {l : Str} {c : Char} (hh : l.head? = some c)
    (h1 : c ≠ '=') (h2 : c ≠ '-') :
    ¬(l = [] ∨ l.head? = some '=' ∨ l.head? = some '-') := by
  rintro (hemp | he | hd)
  · rw [hemp] at hh; exact Option.noConfusion hh
  · rw [he] at hh; injection hh with hh; exact h1 hh.symm
  · rw [hd] at hh; injection hh with hh; exact h2 hh.symm

theorem findSub_header_none {μ H u : Str} (hne : μ ≠ []) (hsp : ' ' ∉ μ)
    (h1 : ¬ μ <:+: H) (h2 : ¬ μ <:+: u) :
    findSub μ (H ++ ' ' :: u) = none := by
  rw [findSub_eq_none_iff]
  intro hi
  rcases infix_append_sep hne hsp hi with h | h
  · exact h1 h
  · exact h2 h

theorem processLine_step {st : ParseState} {rawLine rest role : Str} {K : Nat}
    (hline : pyStrip rawLine = rawLine)
    (hskip : ¬(rawLine = [] ∨ rawLine.head? = some '=' ∨ rawLine.head? = some '-'))
    (hfind : findRoleAux roleMarkers (pyUpper rawLine) = some (role, K))
    (hrest : pyStrip (rawLine.drop K) = rest)
    (hrne : rest ≠ []) :
    processLine st rawLine =
      { emitTurn st with currentRole := some role, currentMessage := [rest] } := by
  simp only [processLine, hline, if_neg hskip, hfind, hrest, if_neg hrne]

/-- Re-parsing a reconstructed line of a good turn matches the same role and
opens a fresh, nonempty, trimmed message. -/
theorem processLine_recon (st : ParseState) {t : Turn} (hg : GoodTurn t) :
    ∃ rest, rest ≠ [] ∧ EdgeClean rest ∧
      processLine st (reconstructLine t) =
        { emitTurn st with currentRole := some t.role, currentMessage := [rest] } := by
  obtain ⟨hrole, hmne, hmnl, hmec, hmf⟩ := hg
  have hrole5 : t.role = chars "Judge" ∨ t.role = chars "Prosecutor" ∨
      t.role = chars "Defense" ∨ t.role = chars "Witness" ∨
      t.role = chars "Court" := by
    simpa [roleNames, roleMarkers] using hrole
  rcases hrole5 with hr | hr | hr | hr | hr
  · -- Judge
    rw [hr] at hmf ⊢
    have hh : (reconstructLine t).head? = some 'J' := by
      rw [reconstructLine, hr]; rfl
    have hlineEC : EdgeClean (reconstructLine t) := by
      rw [reconstructLine, hr]
      exact edgeClean_line 'J' rfl (by decide) hmec hmne
    have hf : findSub (chars "JUDGE:")
        (chars "JUDGE:" ++ ' ' :: pyUpper t.message) = some 0 :=
      findSub_of_lead rfl
    have hup : pyUpper (reconstructLine t) =
        chars "JUDGE:" ++ ' ' :: pyUpper t.message := by
      rw [reconstructLine, hr]; rfl
    have hfind : findRoleAux roleMarkers (pyUpper (reconstructLine t)) =
        some (chars "Judge", 0 + (chars "JUDGE:").length) := by
      rw [hup]
      simp only [roleMarkers, findRoleAux, hf]
    have hdrop : (reconstructLine t).drop (0 + (chars "JUDGE:").length) =
        ' ' :: t.message := by
      rw [reconstructLine, hr]; rfl
    have hrest : pyStrip ((reconstructLine t).drop
        (0 + (chars "JUDGE:").length)) = t.message := by
      rw [hdrop, pyStrip_space_cons]
      exact pyStrip_eq_self hmec
    exact ⟨t.message, hmne, hmec,
      processLine_step (pyStrip_eq_self hlineEC)
        (skip_of_head hh (by decide) (by decide)) hfind hrest hmne⟩
  · -- Prosecutor
    rw [hr] at hmf ⊢
    have hh : (reconstructLine t).head? = some 'P' := by
      rw [reconstructLine, hr]; rfl
    have hlineEC : EdgeClean (reconstructLine t) := by
      rw [reconstructLine, hr]
      exact edgeClean_line 'P' rfl (by decide) hmec hmne
    have hup : pyUpper (reconstructLine t) =
        chars "PROSECUTOR:" ++ ' ' :: pyUpper t.message := by
      rw [reconstructLine, hr]; rfl
    have hn1 : findSub (chars "JUDGE:")
        (chars "PROSECUTOR:" ++ ' ' :: pyUpper t.message) = none :=
      findSub_header_none (by decide) (by decide) (by decide)
        (hmf (chars "JUDGE:") (by decide))
    have hf : findSub (chars "PROSECUTOR")
        (chars "PROSECUTOR:" ++ ' ' :: pyUpper t.message) = some 0 :=
      findSub_of_lead rfl
    have hfind : findRoleAux roleMarkers (pyUpper (reconstructLine t)) =
        some (chars "Prosecutor", 0 + (chars "PROSECUTOR").length) := by
      rw [hup]
      simp only [roleMarkers, findRoleAux, hn1, hf]
    have hdrop : (reconstructLine t).drop (0 + (chars "PROSECUTOR").length) =
        ':' :: ' ' :: t.message := by
      rw [reconstructLine, hr]; rfl
    have hrest : pyStrip ((reconstructLine t).drop
        (0 + (chars "PROSECUTOR").length)) = ':' :: ' ' :: t.message := by
      rw [hdrop]
      exact pyStrip_eq_self (edgeClean_colon_space hmec hmne)
    exact ⟨':' :: ' ' :: t.message, by simp, edgeClean_colon_space hmec hmne,
      processLine_step (pyStrip_eq_self hlineEC)
        (skip_of_head hh (by decide) (by decide)) hfind hrest (by simp)⟩
  · -- Defense
    rw [hr] at hmf ⊢
    have hh : (reconstructLine t).head? = some 'D' := by
      rw [reconstructLine, hr]; rfl
    have hlineEC : EdgeClean (reconstructLine t) := by
      rw [reconstructLine, hr]
      exact edgeClean_line 'D' rfl (by decide) hmec hmne
    have hup : pyUpper (reconstructLine t) =
        chars "DEFENSE:" ++ ' ' :: pyUpper t.message := by
      rw [reconstructLine, hr]; rfl
    have hn1 : findSub (chars "JUDGE:")
        (chars "DEFENSE:" ++ ' ' :: pyUpper t.message) = none :=
      findSub_header_none (by decide) (by decide) (by decide)
        (hmf (chars "JUDGE:") (by decide))
    have hn2 : findSub (chars "PROSECUTOR")
        (chars "DEFENSE:" ++ ' ' :: pyUpper t.message) = none :=
      findSub_header_none (by decide) (by decide) (by decide)
        (hmf (chars "PROSECUTOR") (by decide))
    have hf : findSub (chars "DEFENSE")
        (chars "DEFENSE:" ++ ' ' :: pyUpper t.message) = some 0 :=
      findSub_of_lead rfl
    have hfind : findRoleAux roleMarkers (pyUpper (reconstructLine t)) =
        some (chars "Defense", 0 + (chars "DEFENSE").length) := by
      rw [hup]
      simp only [roleMarkers, findRoleAux, hn1, hn2, hf]
    have hdrop : (reconstructLine t).drop (0 + (chars "DEFENSE").length) =
        ':' :: ' ' :: t.message := by
      rw [reconstructLine, hr]; rfl
    have hrest : pyStrip ((reconstructLine t).drop
        (0 + (chars "DEFENSE").length)) = ':' :: ' ' :: t.message := by
      rw [hdrop]
      exact pyStrip_eq_self (edgeClean_colon_space hmec hmne)
    exact ⟨':' :: ' ' :: t.message, by simp, edgeClean_colon_space hmec hmne,
      processLine_step (pyStrip_eq_self hlineEC)
        (skip_of_head hh (by decide) (by decide)) hfind hrest (by simp)⟩
  · -- Witness
    rw [hr] at hmf ⊢
    have hh : (reconstructLine t).head? = some 'W' := by
      rw [reconstructLine, hr]; rfl
    have hlineEC : EdgeClean (reconstructLine t) := by
      rw [reconstructLine, hr]
      exact edgeClean_line 'W' rfl (by decide) hmec hmne
    have hup : pyUpper (reconstructLine t) =
        chars "WITNESS:" ++ ' ' :: pyUpper t.message := by
      rw [reconstructLine, hr]; rfl
    have hn1 : findSub (chars "JUDGE:")
        (chars "WITNESS:" ++ ' ' :: pyUpper t.message) = none :=
      findSub_header_none (by decide) (by decide) (by decide)
        (hmf (chars "JUDGE:") (by decide))
    have hn2 : findSub (chars "PROSECUTOR")
        (chars "WITNESS:" ++ ' ' :: pyUpper t.message) = none :=
      findSub_header_none (by decide) (by decide) (by decide)
        (hmf (chars "PROSECUTOR") (by decide))
    have hn3 : findSub (chars "DEFENSE")
        (chars "WITNESS:" ++ ' ' :: pyUpper t.message) = none :=
      findSub_header_none (by decide) (by decide) (by decide)
        (hmf (chars "DEFENSE") (by decide))
    have hf : findSub (chars "WITNESS")
        (chars "WITNESS:" ++ ' ' :: pyUpper t.message) = some 0 :=
      findSub_of_lead rfl
    have hfind : findRoleAux roleMarkers (pyUpper (reconstructLine t)) =
        some (chars "Witness", 0 + (chars "WITNESS").length) := by
      rw [hup]
      simp only [roleMarkers, findRoleAux, hn1, hn2, hn3, hf]
    have hdrop : (reconstructLine t).drop (0 + (chars "WITNESS").length) =
        ':' :: ' ' :: t.message := by
      rw [reconstructLine, hr]; rfl
    have hrest : pyStrip ((reconstructLine t).drop
        (0 + (chars "WITNESS").length)) = ':' :: ' ' :: t.message := by
      rw [hdrop]
      exact pyStrip_eq_self (edgeClean_colon_space hmec hmne)
    exact ⟨':' :: ' ' :: t.message, by simp, edgeClean_colon_space hmec hmne,
      processLine_step (pyStrip_eq_self hlineEC)
        (skip_of_head hh (by decide) (by decide)) hfind hrest (by simp)⟩
  · -- Court
    rw [hr] at hmf ⊢
    have hh : (reconstructLine t).head? = some 'C' := by
      rw [reconstructLine, hr]; rfl
    have hlineEC : EdgeClean (reconstructLine t) := by
      rw [reconstructLine, hr]
      exact edgeClean_line 'C' rfl (by decide) hmec hmne
    have hup : pyUpper (reconstructLine t) =
        chars "COURT:" ++ ' ' :: pyUpper t.message := by
      rw [reconstructLine, hr]; rfl
    have hn1 : findSub (chars "JUDGE:")
        (chars "COURT:" ++ ' ' :: pyUpper t.message) = none :=
      findSub_header_none (by decide) (by decide) (by decide)
        (hmf (chars "JUDGE:") (by decide))
    have hn2 : findSub (chars "PROSECUTOR")
        (chars "COURT:" ++ ' ' :: pyUpper t.message) = none :=
      findSub_header_none (by decide) (by decide) (by decide)
        (hmf (chars "PROSECUTOR") (by decide))
    have hn3 : findSub (chars "DEFENSE")
        (chars "COURT:" ++ ' ' :: pyUpper t.message) = none :=
      findSub_header_none (by decide) (by decide) (by decide)
        (hmf (chars "DEFENSE") (by decide))
    have hn4 : findSub (chars "WITNESS")
        (chars "COURT:" ++ ' ' :: pyUpper t.message) = none :=
      findSub_header_none (by decide) (by decide) (by decide)
        (hmf (chars "WITNESS") (by decide))
    have hf : findSub (chars "COURT:")
        (chars "COURT:" ++ ' ' :: pyUpper t.message) = some 0 :=
      findSub_of_lead rfl
    have hfind : findRoleAux roleMarkers (pyUpper (reconstructLine t)) =
        some (chars "Court", 0 + (chars "COURT:").length) := by
      rw [hup]
      simp only [roleMarkers, findRoleAux, hn1, hn2, hn3, hn4, hf]
    have hdrop : (reconstructLine t).drop (0 + (chars "COURT:").length) =
        ' ' :: t.message := by
      rw [reconstructLine, hr]; rfl
    have hrest : pyStrip ((reconstructLine t).drop
        (0 + (chars "COURT:").length)) = t.message := by
      rw [hdrop, pyStrip_space_cons]
      exact pyStrip_eq_self hmec
    exact ⟨t.message, hmne, hmec,
      processLine_step (pyStrip_eq_self hlineEC)
        (skip_of_head hh (by decide) (by decide)) hfind hrest hmne⟩

theorem emit_pending {st : ParseState} {r rest : Str}
    (hcr : st.currentRole = some r) (hcm : st.currentMessage = [rest])
    (hne : rest ≠ []) (hec : EdgeClean rest) :
    (emitTurn st).turns = st.turns ++ [mkTurn st.turnNumber r rest] := by
  obtain ⟨cr, cm, n, ts⟩ := st
  dsimp at hcr hcm
  subst hcr
  subst hcm
  rw [emitTurn]
  dsimp only
  rw [if_neg (by simp),
    show joinSep ' ' [rest] = rest from rfl, pyStrip_eq_self hec, if_neg hne]

/-- Invariant of the re-parse of a reconstructed transcript: the pending
message is either absent or a single clean nonempty piece that will be
flushed as exactly one turn. -/
def ReconInv (st : ParseState) : Prop :=
  (st.currentRole = none ∧ st.currentMessage = []) ∨
  ∃ r rest, st.currentRole = some r ∧ st.currentMessage = [rest] ∧
    rest ≠ [] ∧ EdgeClean rest

theorem recon_fold (ts : List Turn) (hts : ∀ t ∈ ts, GoodTurn t) :
    ∀ st, ReconInv st →
      (emitTurn ((ts.map reconstructLine).foldl processLine st)).turns.map Turn.role
        = (emitTurn st).turns.map Turn.role ++ ts.map Turn.role ∧
      (emitTurn ((ts.map reconstructLine).foldl processLine st)).turns.length
        = (emitTurn st).turns.length + ts.length := by
  induction ts with
  | nil => intro st _; simp
  | cons t rest ih =>
    intro st hinv
    obtain ⟨rp, hrne, hrec, hproc⟩ :=
      processLine_recon st (hts t (List.mem_cons_self _ _))
    rw [List.map_cons, List.foldl_cons, hproc]
    obtain ⟨hroles, hlen⟩ := ih (fun u hu => hts u (List.mem_cons_of_mem _ hu))
      { emitTurn st with currentRole := some t.role, currentMessage := [rp] }
      (Or.inr ⟨t.role, rp, rfl, rfl, hrne, hrec⟩)
    rw [hroles, hlen]
    have hemit :
        (emitTurn
            { emitTurn st with currentRole := some t.role, currentMessage := [rp] }).turns
          = (emitTurn st).turns ++ [mkTurn (emitTurn st).turnNumber t.role rp] :=
      emit_pending rfl rfl hrne hrec
    rw [hemit]
    constructor
    · rw [List.map_append]
      simp [mkTurn]
    · simp
      omega

theorem reconLine_noNl {t : Turn} (hg : GoodTurn t) : '\n' ∉ reconstructLine t := by
  rw [reconstructLine]
  intro hm
  rcases List.mem_append.mp hm with h | h
  · exact (by decide : ∀ r ∈ roleNames, ('\n' : Char) ∉ r) t.role hg.1 h
  · rcases List.mem_cons.mp h with h1 | h2
    · exact absurd h1 (by decide)
    · rcases List.mem_cons.mp h2 with h1 | h3
      · exact absurd h1 (by decide)
      · exact hg.2.2.1 h3

/-- **C7.** The parser is idempotent on its own output shape: rebuilding a
transcript by joining the emitted turns as lines `"<role>: <message>"` and
re-parsing yields the same number of turns with the same role sequence. -/
theorem parser_idem_on_reconstruction (transcript : Str) :
    (parse_simulation_into_turns
        (reconstructTranscript (parse_simulation_into_turns transcript))).length
      = (parse_simulation_into_turns transcript).length ∧
    (parse_simulation_into_turns
        (reconstructTranscript (parse_simulation_into_turns transcript))).map Turn.role
      = (parse_simulation_into_turns transcript).map Turn.role := by
  have hgood := goodTurn_parse transcript
  by_cases hempty : parse_simulation_into_turns transcript = []
  · rw [hempty]
    exact ⟨by decide, by decide⟩
  · have hlines : ∀ l ∈ (parse_simulation_into_turns transcript).map reconstructLine,
        '\n' ∉ l := by
      intro l hl
      obtain ⟨t, ht, rfl⟩ := List.mem_map.mp hl
      exact reconLine_noNl (hgood t ht)
    have hmapne : (parse_simulation_into_turns transcript).map reconstructLine ≠ [] := by
      simpa using hempty
    have hsplit : splitSep '\n'
        (reconstructTranscript (parse_simulation_into_turns transcript))
        = (parse_simulation_into_turns transcript).map reconstructLine := by
      rw [reconstructTranscript]
      exact splitSep_joinSep hmapne hlines
    obtain ⟨hroles, hlen⟩ :=
      recon_fold _ hgood initParseState (Or.inl ⟨rfl, rfl⟩)
    constructor
    · conv_lhs => rw [parse_simulation_into_turns, hsplit]
      rw [hlen]
      simp [initParseState, emitTurn]
    · conv_lhs => rw [parse_simulation_into_turns, hsplit]
      rw [hroles]
      simp [initParseState, emitTurn]

/-! ### C10: per-turn thinking_process lookups always miss

`start_courtroom_simulation` attaches to every parsed turn the value
`sim_out["thinking_processes"].get(turn["role"], "")` (route lines
430-436), while `run_agent_simulation` keys the map by
`prosecutor_thoughts`/`defense_thoughts`/`judge_thoughts` (lines 266-270)
and the parser produces roles from `{Judge, Prosecutor, Defense, Witness,
Court}`. -/

/-- One entry of an agent's thinking log (`BaseAgent.think`). -/
structure ThoughtEntry where
  timestamp : Str
  category : Str
  thought : Str
  role : Str
deriving DecidableEq

/-- The runtime value of the `thinking_process` field attached to a stored
turn: Python's `dict.get(key, "")` yields either the stored list of thought
entries or the empty-string default. -/
inductive ThinkingVal where
  | thoughts (entries : List ThoughtEntry)
  | emptyStr
deriving DecidableEq

/-- `sim_out.get("thinking_processes", {}).get(turn["role"], "")`. -/
def dictGetThinking (d : List (Str × List ThoughtEntry)) (k : Str) : ThinkingVal :=
  match List.lookup k d with
  | some v => ThinkingVal.thoughts v
  | none => ThinkingVal.emptyStr

/-- The `thinking` dict built by `run_agent_simulation`. -/
def agentThinking (pros defn jud : List ThoughtEntry) :
    List (Str × List ThoughtEntry) :=
  [(chars "prosecutor_thoughts", pros),
   (chars "defense_thoughts", defn),
   (chars "judge_thoughts", jud)]

/-- The turn-enrichment loop of `start_courtroom_simulation`. -/
def attachThinking (thinking : List (Str × List ThoughtEntry))
    (turns : List Turn) : List (Turn × ThinkingVal) :=
  turns.map (fun t => (t, dictGetThinking thinking t.role))

/-- **C10.** In every agent-path simulation run, the `thinking_process`
attached to each stored turn is the empty-string default: the thinking map
is keyed by `prosecutor_thoughts`/`defense_thoughts`/`judge_thoughts`
while the lookup key is the turn's role label from
`{Judge, Prosecutor, Defense, Witness, Court}` — disjoint key sets. -/
theorem agent_turn_thinking_always_empty (transcript : Str)
    (pros defn jud : List ThoughtEntry) :
    ∀ p ∈ attachThinking (agentThinking pros defn jud)
        (parse_simulation_into_turns transcript),
      p.2 = ThinkingVal.emptyStr := by
  intro p hp
  obtain ⟨t, ht, rfl⟩ := List.mem_map.mp hp
  have hrole5 : t.role = chars "Judge" ∨ t.role = chars "Prosecutor" ∨
      t.role = chars "Defense" ∨ t.role = chars "Witness" ∨
      t.role = chars "Court" := by
    simpa [roleNames, roleMarkers] using (goodTurn_parse transcript t ht).1
  show dictGetThinking (agentThinking pros defn jud) t.role = ThinkingVal.emptyStr
  rcases hrole5 with hr | hr | hr | hr | hr <;> rw [hr] <;> rfl

/-- Witness for C10 on the transcript `"JUDGE: Order."` with empty logs. -/
theorem agent_turn_thinking_always_empty_witness :
    (mkTurn 0 (chars "Judge") (chars "Order."), ThinkingVal.emptyStr).2 =
      ThinkingVal.emptyStr :=
  agent_turn_thinking_always_empty (chars "JUDGE: Order.") [] [] []
    (mkTurn 0 (chars "Judge") (chars "Order."), ThinkingVal.emptyStr) (by decide)

/-! ### The result validator and the orchestration of
`start_courtroom_simulation`

Python dictionaries holding heterogeneous values are modelled by `PyVal`;
`validate_simulation_results` (route lines 362-410) returns
`(True, None)` / `(False, message)`, modelled as `Option VErr` where the
structured error value stands for the message and `none` for success. -/

inductive PyVal where
  | pstr (s : Str)
  | pint (n : Int)
  | plist (l : List PyVal)
  | pdict (d : List (Str × PyVal))
  | pdatetime (t : Nat)

/-- The `isinstance` type tags used by the validator. -/
inductive PyTy where
  | tstr | tint | tlist | tdict | tdatetime
deriving DecidableEq

def tyOf : PyVal → PyTy
  | .pstr _ => .tstr
  | .pint _ => .tint
  | .plist _ => .tlist
  | .pdict _ => .tdict
  | .pdatetime _ => .tdatetime

/-- The distinct failure messages of `validate_simulation_results`. -/
inductive VErr where
  | missingField (f : Str)
  | invalidType (f : Str)
  | turnMissingFields (missing : List Str)
  | emptyText
  | invalidEvidenceCount
  | invalidSimulationType (s : Str)
  | invalidStatus (s : Str)
deriving DecidableEq

/-- The `required_fields` dict of the validator, in insertion order. -/
def requiredFields : List (Str × PyTy) :=
  [(chars "simulation_id", .tstr),
   (chars "simulation_text", .tstr),
   (chars "turns", .tlist),
   (chars "thinking_processes", .tdict),
   (chars "evidence_analyzed", .tint),
   (chars "simulation_type", .tstr),
   (chars "generated_at", .tdatetime),
   (chars "status", .tstr)]

/-- The first loop of the validator: each required field must exist and
have the expected type, reporting the first offender. -/
def checkFields (d : List (Str × PyVal)) : List (Str × PyTy) → Option VErr
  | [] => none
  | (f, ty) :: rest =>
    match List.lookup f d with
    | none => some (VErr.missingField f)
    | some v => if tyOf v ≠ ty then some (VErr.invalidType f) else checkFields d rest

def requiredTurnFields : List Str :=
  [chars "turn_number", chars "role", chars "message",
   chars "timestamp", chars "duration"]

/-- `turn.keys()`; a non-dict element has no keys (in Python it would raise
inside the validator, which is equally a non-success outcome). -/
def turnKeys : PyVal → List Str
  | .pdict d => d.map Prod.fst
  | _ => []

/-- The per-turn loop: `required_turn_fields - set(turn.keys())` nonempty
fails the validation. -/
def checkTurns : List PyVal → Option VErr
  | [] => none
  | turn :: rest =>
    let missing := requiredTurnFields.filter (fun f => decide (f ∉ turnKeys turn))
    if missing ≠ [] then some (VErr.turnMissingFields missing) else checkTurns rest

/-- `valid_types = {'local_agents', 'openai', 'static_fallback', 'hybrid'}`. -/
def validTypes : List Str :=
  [chars "local_agents", chars "openai", chars "static_fallback", chars "hybrid"]

/-- `{'completed', 'failed', 'partial'}`. -/
def validStatuses : List Str :=
  [chars "completed", chars "failed", chars "partial"]

/-- `validate_simulation_results(results)`: field presence/type loop, turn
field check, nonempty stripped text, evidence count in [0, 100], enum
checks on `simulation_type` and `status`, in source order.  The `_`
match arms are unreachable when the field loop has passed (it pins each
field's constructor). -/
def validate_simulation_results (results : List (Str × PyVal)) : Option VErr :=
  match checkFields results requiredFields with
  | some e => some e
  | none =>
    match
      (match List.lookup (chars "turns") results with
       | some (.plist ts) => checkTurns ts
       | _ => none) with
    | some e => some e
    | none =>
      match List.lookup (chars "simulation_text") results with
      | some (.pstr s) =>
        if pyStrip s = [] then some VErr.emptyText
        else
          match List.lookup (chars "evidence_analyzed") results with
          | some (.pint n) =>
            if ¬(0 ≤ n ∧ n ≤ 100) then some VErr.invalidEvidenceCount
            else
              match List.lookup (chars "simulation_type") results with
              | some (.pstr st) =>
                if st ∉ validTypes then some (VErr.invalidSimulationType st)
                else
                  match List.lookup (chars "status") results with
                  | some (.pstr sts) =>
                    if sts ∉ validStatuses then some (VErr.invalidStatus sts)
                    else none
                  | _ => none
              | _ => none
          | _ => none
      | _ => none

/-- The `simulation_results` dict assembled at route lines 413-422 (its
`turns` list is still empty at validation time; it is populated only
afterwards). -/
def buildSimulationResults (simId transcript : Str)
    (thinking : List (Str × PyVal)) (evidenceAnalyzed : Int)
    (simType : Str) (generatedAt : Nat) : List (Str × PyVal) :=
  [(chars "simulation_id", .pstr simId),
   (chars "simulation_text", .pstr transcript),
   (chars "turns", .plist []),
   (chars "thinking_processes", .pdict thinking),
   (chars "evidence_analyzed", .pint evidenceAnalyzed),
   (chars "simulation_type", .pstr simType),
   (chars "generated_at", .pdatetime generatedAt),
   (chars "status", .pstr (chars "completed"))]

/-- Route lines 424-428: a failed validation returns a 400 error before any
turn enrichment, report generation or persistence. -/
inductive PostValidation where
  | rejected (e : VErr)
  | proceed
deriving DecidableEq

def routeAfterValidation (results : List (Str × PyVal)) : PostValidation :=
  match validate_simulation_results results with
  | some e => PostValidation.rejected e
  | none => PostValidation.proceed

/-- The provider-tier label stored in `simulation_type` (route lines
330-350): `local_agents` when `run_agent_simulation` succeeds, `openai`
when the OpenAI fallback produces the transcript, `static_fallback` for the
static path. -/
def selectSimulationType (agentSimOk openaiOk : Bool) : Str :=
  if agentSimOk then chars "local_agents"
  else if openaiOk then chars "openai"
  else chars "static_fallback"

theorem checkFields_none {d : List (Str × PyVal)} :
    ∀ {fs : List (Str × PyTy)}, checkFields d fs = none →
      ∀ p ∈ fs, ∃ v, List.lookup p.1 d = some v ∧ tyOf v = p.2 := by
  intro fs
  induction fs with
  | nil => intro _ p hp; simp at hp
  | cons q rest ih =>
    obtain ⟨f, ty⟩ := q
    intro h p hp
    cases hlk : List.lookup f d with
    | none =>
      simp only [checkFields, hlk] at h
      exact Option.noConfusion h
    | some v =>
      simp only [checkFields, hlk] at h
      by_cases hty : tyOf v ≠ ty
      · rw [if_pos hty] at h
        exact Option.noConfusion h
      · rw [if_neg hty] at h
        push_neg at hty
        rcases List.mem_cons.mp hp with rfl | hp2
        · exact ⟨v, hlk, hty⟩
        · exact ih h p hp2

/-- Soundness of a passing validation: every condition the validator
checks must in fact hold. -/
theorem validate_none_sound {results : List (Str × PyVal)}
    (hnone : validate_simulation_results results = none) :
    (∀ p ∈ requiredFields, ∃ v, List.lookup p.1 results = some v ∧ tyOf v = p.2) ∧
    (∀ s, List.lookup (chars "simulation_text") results = some (PyVal.pstr s) →
      pyStrip s ≠ []) ∧
    (∀ n, List.lookup (chars "evidence_analyzed") results = some (PyVal.pint n) →
      0 ≤ n ∧ n ≤ 100) ∧
    (∀ s, List.lookup (chars "simulation_type") results = some (PyVal.pstr s) →
      s ∈ validTypes) ∧
    (∀ s, List.lookup (chars "status") results = some (PyVal.pstr s) →
      s ∈ validStatuses) := by
  cases hcf : checkFields results requiredFields with
  | some e =>
    simp only [validate_simulation_results, hcf] at hnone
    exact Option.noConfusion hnone
  | none =>
    have hfields := checkFields_none hcf
    obtain ⟨vturns, hlkturns, htyturns⟩ :=
      hfields (chars "turns", PyTy.tlist) (by decide)
    obtain ⟨vtext, hlktext, htytext⟩ :=
      hfields (chars "simulation_text", PyTy.tstr) (by decide)
    obtain ⟨vev, hlkev, htyev⟩ :=
      hfields (chars "evidence_analyzed", PyTy.tint) (by decide)
    obtain ⟨vtype, hlktype, htytype⟩ :=
      hfields (chars "simulation_type", PyTy.tstr) (by decide)
    obtain ⟨vstat, hlkstat, htystat⟩ :=
      hfields (chars "status", PyTy.tstr) (by decide)
    cases vturns <;> simp [tyOf] at htyturns
    case plist ts =>
    cases vtext <;> simp [tyOf] at htytext
    case pstr stext =>
    cases vev <;> simp [tyOf] at htyev
    case pint n =>
    cases vtype <;> simp [tyOf] at htytype
    case pstr stype =>
    cases vstat <;> simp [tyOf] at htystat
    case pstr sstat =>
    cases hct : checkTurns ts with
    | some e =>
      simp only [validate_simulation_results, hcf, hlkturns, hct] at hnone
      exact Option.noConfusion hnone
    | none =>
      simp only [validate_simulation_results, hcf, hlkturns, hct, hlktext,
        hlkev, hlktype, hlkstat] at hnone
      by_cases hst : pyStrip stext = []
      · rw [if_pos hst] at hnone
        exact Option.noConfusion hnone
      · rw [if_neg hst] at hnone
        by_cases hev : ¬(0 ≤ n ∧ n ≤ 100)
        · rw [if_pos hev] at hnone
          exact Option.noConfusion hnone
        · rw [if_neg hev] at hnone
          push_neg at hev
          by_cases hty4 : stype ∉ validTypes
          · rw [if_pos hty4] at hnone
            exact Option.noConfusion hnone
          · rw [if_neg hty4] at hnone
            by_cases hss : sstat ∉ validStatuses
            · rw [if_pos hss] at hnone
              exact Option.noConfusion hnone
            · refine ⟨hfields, ?_, ?_, ?_, ?_⟩
              · intro s hs
                have heq := hlktext.symm.trans hs
                injection heq with heq
                injection heq with heq
                rw [← heq]
                exact hst
              · intro m hm
                have heq := hlkev.symm.trans hm
                injection heq with heq
                injection heq with heq
                rw [← heq]
                exact ⟨hev.1, hev.2⟩
              · intro s hs
                have heq := hlktype.symm.trans hs
                injection heq with heq
                injection heq with heq
                rw [← heq]
                exact Classical.not_not.mp hty4
              · intro s hs
                have heq := hlkstat.symm.trans hs
                injection heq with heq
                injection heq with heq
                rw [← heq]
                exact Classical.not_not.mp hss

/-- **C5.** `ResultValidation` returns failure — and the run is rejected
with an error before turn enrichment or persistence — whenever the result
is missing one of the eight required fields, has a field of the wrong
type, has `simulation_type` or `status` outside its fixed enum set, has a
`simulation_text` that is empty after stripping, or has
`evidence_analyzed` outside `[0, 100]`. -/
theorem validation_rejects_invalid_results (results : List (Str × PyVal))
    (hbad :
      (∃ p ∈ requiredFields, List.lookup p.1 results = none) ∨
      (∃ p ∈ requiredFields, ∃ v,
        List.lookup p.1 results = some v ∧ tyOf v ≠ p.2) ∨
      (∃ s, List.lookup (chars "simulation_type") results = some (PyVal.pstr s) ∧
        s ∉ validTypes) ∨
      (∃ s, List.lookup (chars "status") results = some (PyVal.pstr s) ∧
        s ∉ validStatuses) ∨
      (∃ s, List.lookup (chars "simulation_text") results = some (PyVal.pstr s) ∧
        pyStrip s = []) ∨
      (∃ n, List.lookup (chars "evidence_analyzed") results = some (PyVal.pint n) ∧
        ¬(0 ≤ n ∧ n ≤ 100))) :
    validate_simulation_results results ≠ none ∧
    routeAfterValidation results ≠ PostValidation.proceed := by
  have hmain : validate_simulation_results results ≠ none := by
    intro hnone
    obtain ⟨hfields, htext, hev, htype, hstat⟩ := validate_none_sound hnone
    rcases hbad with ⟨p, hp, hlk⟩ | ⟨p, hp, v, hlk, hty⟩ | ⟨s, hlk, hs⟩ |
      ⟨s, hlk, hs⟩ | ⟨s, hlk, hs⟩ | ⟨n, hlk, hn⟩
    · obtain ⟨v, hv, _⟩ := hfields p hp
      rw [hlk] at hv
      exact Option.noConfusion hv
    · obtain ⟨v2, hv2, hty2⟩ := hfields p hp
      rw [hlk] at hv2
      injection hv2 with hv2
      rw [← hv2] at hty2
      exact hty hty2
    · exact hs (htype s hlk)
    · exact hs (hstat s hlk)
    · exact (htext s hlk) hs
    · exact hn (hev n hlk)
  refine ⟨hmain, ?_⟩
  rw [routeAfterValidation]
  cases hv : validate_simulation_results results with
  | none => exact absurd hv hmain
  | some e => simp

/-- Witness for C5: the empty results dict is missing `simulation_id`,
so validation fails and the run is rejected. -/
theorem validation_rejects_invalid_results_witness :
    validate_simulation_results [] ≠ none ∧
    routeAfterValidation [] ≠ PostValidation.proceed :=
  validation_rejects_invalid_results []
    (Or.inl ⟨(chars "simulation_id", PyTy.tstr), by decide, rfl⟩)

/-- Counterexample to **C2** as stated: the validator does not accept
exactly `{local_agents, remote_llm, static_fallback}` — it rejects
`remote_llm` and accepts both `openai` and `hybrid`; the remote-LLM path's
actual label `openai` is outside the claimed three-label set. -/
theorem simulation_type_label_set_counterexample :
    validate_simulation_results
        (buildSimulationResults (chars "SIM_1") (chars "transcript")
          [] 0 (chars "remote_llm") 0) =
      some (VErr.invalidSimulationType (chars "remote_llm")) ∧
    validate_simulation_results
        (buildSimulationResults (chars "SIM_1") (chars "transcript")
          [] 0 (chars "hybrid") 0) = none ∧
    chars "hybrid" ∉
      [chars "local_agents", chars "remote_llm", chars "static_fallback"] ∧
    selectSimulationType false true = chars "openai" ∧
    chars "openai" ∉
      [chars "local_agents", chars "remote_llm", chars "static_fallback"] := by
  refine ⟨rfl, rfl, by decide, rfl, by decide⟩

/-- **C2 (amended).** The provider-tier label stored in `simulation_type`
is drawn from `{local_agents, openai, static_fallback}` — `local_agents`
when the agent simulation succeeded, `openai` when the single-call OpenAI
fallback produced the transcript, `static_fallback` when the static path
did — and the validator's enum check accepts exactly the four labels
`{local_agents, openai, static_fallback, hybrid}`. -/
theorem simulation_type_labels_amended :
    (∀ a o : Bool, selectSimulationType a o ∈
      [chars "local_agents", chars "openai", chars "static_fallback"]) ∧
    selectSimulationType true true = chars "local_agents" ∧
    selectSimulationType true false = chars "local_agents" ∧
    selectSimulationType false true = chars "openai" ∧
    selectSimulationType false false = chars "static_fallback" ∧
    (∀ s, validate_simulation_results
        (buildSimulationResults (chars "SIM_1") (chars "transcript") [] 0 s 0)
      = none ↔ s ∈ validTypes) := by
  refine ⟨?_, rfl, rfl, rfl, rfl, ?_⟩
  · intro a o
    cases a <;> cases o <;> decide
  · intro s
    have hred : validate_simulation_results
        (buildSimulationResults (chars "SIM_1") (chars "transcript") [] 0 s 0)
        = if s ∉ validTypes then some (VErr.invalidSimulationType s) else none := rfl
    rw [hred]
    by_cases hs : s ∈ validTypes
    · simp [hs]
    · simp [hs]

/-! ### The evidence-analysis stage (`analyze_case_evidence` and step 1 of
`start_courtroom_simulation`) -/

/-- An evidence document as returned by the evidence store. -/
structure EvidenceFile where
  title : Str
  evidence_type : Str
  description : Str
  file_path : Str
deriving DecidableEq

/-- One analyzed-evidence dict (route lines 122-130). -/
structure EvidenceRecord where
  title : Str
  etype : Str
  content : Str
  summary : Str
  source : Str
deriving DecidableEq

/-- Python `pat in s` on strings: substring test. -/
def containsSub (pat l : Str) : Bool := (findSub pat l).isSome

/-- Build one record; `parse` stands for the external `master_parser`
(modelled total, already normalized to text), the content is truncated to
4000 characters and the summary is `f"{title} - {description}"`. -/
def analyzeOneEvidence (parse : EvidenceFile → Str) (ev : EvidenceFile) :
    EvidenceRecord :=
  { title := ev.title,
    etype := ev.evidence_type,
    content := (parse ev).take 4000,
    summary := ev.title ++ chars " - " ++ ev.description,
    source := ev.file_path }

/-- `analyze_case_evidence` returns `Union[str, List[...]]`: the
"no evidence" message when the store returns nothing, else the list. -/
inductive EvAnalysisResult where
  | err (msg : Str)
  | ok (records : List EvidenceRecord)
deriving DecidableEq

def analyze_case_evidence (parse : EvidenceFile → Str)
    (files : List EvidenceFile) : EvAnalysisResult :=
  if files = [] then EvAnalysisResult.err (chars "No evidence files found for this case.")
  else EvAnalysisResult.ok (files.map (analyzeOneEvidence parse))

/-- The runtime value of the `evidence_analysis` variable in the route:
Python leaves it as the message *string* when `analyze_case_evidence`
reports "No evidence files found", and as a list otherwise. -/
inductive EvidenceValue where
  | strVal (s : Str)
  | listVal (l : List EvidenceRecord)
deriving DecidableEq

inductive EvidenceStageResult where
  | proceed (v : EvidenceValue)
  | abort (errMsg : Str)
deriving DecidableEq

/-- Step 1 of `start_courtroom_simulation` (route lines 313-325):
`evidence_analysis` starts as `[]`; with the `has_evidence` flag set it is
reassigned to whatever `analyze_case_evidence` returns — including the
"No evidence files found" *string*, which is only logged, not replaced. -/
def evidenceStage (parse : EvidenceFile → Str) (hasEvidence : Bool)
    (files : List EvidenceFile) : EvidenceStageResult :=
  if hasEvidence then
    match analyze_case_evidence parse files with
    | EvAnalysisResult.err m =>
      if containsSub (chars "No evidence files found") m then
        EvidenceStageResult.proceed (EvidenceValue.strVal m)
      else EvidenceStageResult.abort m
    | EvAnalysisResult.ok l => EvidenceStageResult.proceed (EvidenceValue.listVal l)
  else EvidenceStageResult.proceed (EvidenceValue.listVal [])

/-- `len(evidence_analysis) if evidence_analysis else 0` (route line 418) —
`len` of a *string* when the variable holds the message string. -/
def evidenceAnalyzedCount : EvidenceValue → Nat
  | EvidenceValue.strVal s => if s = [] then 0 else s.length
  | EvidenceValue.listVal l => if l = [] then 0 else l.length

/-- Counterexample to **C3** as stated: a case with the `has_evidence` flag
set but zero stored evidence items does *not* get an empty evidence list —
the stage leaves the "No evidence files found for this case." message
string in `evidence_analysis`, and the `evidence_analyzed` count computed
from it is the string's length 38, not 0. -/
theorem evidence_flag_without_items_counterexample :
    evidenceStage (fun _ => []) true [] ≠
      EvidenceStageResult.proceed (EvidenceValue.listVal []) ∧
    evidenceStage (fun _ => []) true [] =
      EvidenceStageResult.proceed
        (EvidenceValue.strVal (chars "No evidence files found for this case.")) ∧
    evidenceAnalyzedCount
        (EvidenceValue.strVal (chars "No evidence files found for this case.")) = 38 := by
  refine ⟨by decide, rfl, by decide⟩

/-- **C3 (amended).** For every well-formed case whose `has_evidence` flag
is unset, the evidence stage yields the empty evidence list (neither an
error nor any other value), the run proceeds, the `evidence_analyzed`
count is 0, and a result built from any nonempty transcript with that
count passes validation, so the run completes. -/
theorem evidence_stage_no_flag_empty (parse : EvidenceFile → Str)
    (files : List EvidenceFile) :
    evidenceStage parse false files =
      EvidenceStageResult.proceed (EvidenceValue.listVal []) ∧
    evidenceAnalyzedCount (EvidenceValue.listVal []) = 0 ∧
    validate_simulation_results
        (buildSimulationResults (chars "SIM_1") (chars "transcript") []
          (Int.ofNat (evidenceAnalyzedCount (EvidenceValue.listVal [])))
          (chars "local_agents") 0) = none ∧
    routeAfterValidation
        (buildSimulationResults (chars "SIM_1") (chars "transcript") []
          (Int.ofNat (evidenceAnalyzedCount (EvidenceValue.listVal [])))
          (chars "local_agents") 0) = PostValidation.proceed := by
  exact ⟨rfl, rfl, rfl, rfl⟩

/-! ### The agents (`BaseAgent` and the role-specific fallback overrides)

The three concrete classes `ProsecutorAgent`, `DefenseAgent` and
`JudgeAgent` each fix a role string, a personality and an expertise level
in their constructors; the class also decides which static-fallback getters
are overridden.  `random.choice` is modelled by an explicit RNG draw
(`pyChoice rng l` returns the list element the draw selects); external
provider behaviour enters as `ProviderEnv`. -/

inductive AgentRole where
  | prosecutor | defense | judge
deriving DecidableEq

def roleStr : AgentRole → Str
  | AgentRole.prosecutor => chars "prosecutor"
  | AgentRole.defense => chars "defense attorney"
  | AgentRole.judge => chars "judge"

def personalityStr : AgentRole → Str
  | AgentRole.prosecutor => chars "assertive but fair"
  | AgentRole.defense => chars "protective and thorough"
  | AgentRole.judge => chars "fair and impartial"

def expertiseStr : AgentRole → Str
  | AgentRole.prosecutor => chars "experienced"
  | AgentRole.defense => chars "experienced"
  | AgentRole.judge => chars "highly experienced"

/-- The case dict fields the agents read.  `case_type` is `get`-accessed
and may be absent; `multiple_parties` is the truthiness of
`case_data.get('parties', {}).get('multiple_parties')`. -/
structure CaseData where
  title : Str
  description : Str
  case_type : Option Str
  multiple_parties : Bool
  has_evidence : Bool
deriving DecidableEq

/-- The analysis dict computed by `BaseAgent.analyze_case`. -/
structure CaseAnalysis where
  case_type : Str
  complexity : Str
  key_issues : List Str
  applicable_law : List Str
  strategy_notes : List Str
deriving DecidableEq

/-- The mutable state of one agent.  `case_memory` starts as the empty
dict (`none`); `analyze_case` always stores the full five-key analysis
dict, so `case_memory.update(analysis)` is modelled as `some analysis`. -/
structure AgentState where
  agentClass : AgentRole
  thinking_process : List ThoughtEntry
  case_memory : Option CaseAnalysis
  evidence_analysis : List (Str × PyVal)

/-- A freshly constructed agent of the given class. -/
def mkAgent (cls : AgentRole) : AgentState :=
  { agentClass := cls, thinking_process := [], case_memory := none,
    evidence_analysis := [] }

def mkThought (ts situation category role : Str) : ThoughtEntry :=
  { timestamp := ts, category := category, thought := situation, role := role }

/-- `BaseAgent.think`: appends exactly one entry to the thinking log (the
timestamp comes from the wall clock, here a parameter). -/
def think (st : AgentState) (ts situation category : Str) : AgentState :=
  { st with thinking_process := st.thinking_process ++
      [mkThought ts situation category (roleStr st.agentClass)] }

/-- `BaseAgent._assess_complexity`: one point for a description longer
than 500 characters, one for a multi-party structure, one for a case type
in `['constitutional', 'corporate']`; `>= 2` is high, `== 1` medium,
otherwise low. -/
def _assess_complexity (cd : CaseData) : Str :=
  let factors :=
    (if cd.description.length > 500 then 1 else 0) +
    (if cd.multiple_parties then 1 else 0) +
    (if cd.case_type = some (chars "constitutional") ∨
        cd.case_type = some (chars "corporate") then 1 else 0)
  if factors ≥ 2 then chars "high"
  else if factors = 1 then chars "medium"
  else chars "low"

/-- `BaseAgent._identify_key_issues`: keyword matching over the lowered
description, per case type, with the generic triple as fallback. -/
def _identify_key_issues (cd : CaseData) (case_type : Str) : List Str :=
  let description := pyLower cd.description
  let issues :=
    if case_type = chars "criminal" then
      (if containsSub (chars "theft") description ||
          containsSub (chars "steal") description ||
          containsSub (chars "robbery") description then
        [chars "intent to steal", chars "ownership of property",
         chars "value of stolen goods"] else []) ++
      (if containsSub (chars "assault") description ||
          containsSub (chars "battery") description ||
          containsSub (chars "violence") description then
        [chars "intent to harm", chars "self-defense", chars "provocation"]
       else []) ++
      (if containsSub (chars "fraud") description ||
          containsSub (chars "deception") description then
        [chars "intent to defraud", chars "materiality of misrepresentation"]
       else [])
    else if case_type = chars "civil" then
      (if containsSub (chars "contract") description ||
          containsSub (chars "agreement") description ||
          containsSub (chars "breach") description then
        [chars "contract formation", chars "performance", chars "damages"]
       else []) ++
      (if containsSub (chars "negligence") description ||
          containsSub (chars "accident") description ||
          containsSub (chars "injury") description then
        [chars "duty of care", chars "breach of duty", chars "causation",
         chars "damages"] else [])
    else []
  if issues = [] then [chars "liability", chars "damages", chars "causation"]
  else issues

/-- `BaseAgent._get_applicable_law`:
`legal_knowledge['case_types'].get(case_type, {}).get('key_elements', ...)`. -/
def _get_applicable_law (case_type : Str) : List Str :=
  if case_type = chars "criminal" then
    [chars "mens rea", chars "actus reus", chars "causation"]
  else if case_type = chars "civil" then
    [chars "duty", chars "breach", chars "causation", chars "damages"]
  else if case_type = chars "constitutional" then
    [chars "fundamental rights", chars "equal protection", chars "due process"]
  else [chars "general legal principles"]

/-- `BaseAgent._develop_strategy_notes` (base implementation). -/
def _develop_strategy_notes (role case_type : Str) : List Str :=
  [chars "Develop " ++ role ++ chars " strategy for " ++ case_type ++ chars " case"]

/-- `BaseAgent.analyze_case`: one `analysis`-category thought, then the
pure analysis of the supplied case, stored into `case_memory`. -/
def analyze_case (st : AgentState) (ts : Str) (cd : CaseData) :
    CaseAnalysis × AgentState :=
  let st1 := think st ts (chars "Analyzing case: " ++ cd.title) (chars "analysis")
  let case_type := pyLower (cd.case_type.getD (chars "unknown"))
  let analysis : CaseAnalysis :=
    { case_type := case_type,
      complexity := _assess_complexity cd,
      key_issues := _identify_key_issues cd case_type,
      applicable_law := _get_applicable_law case_type,
      strategy_notes := _develop_strategy_notes (roleStr st.agentClass) case_type }
  (analysis, { st1 with case_memory := some analysis })

/-- `BaseAgent.clear_memory`. -/
def clear_memory (st : AgentState) : AgentState :=
  { st with thinking_process := [], case_memory := none, evidence_analysis := [] }

/-- `random.choice(l)`: the element the RNG draw selects. -/
def pyChoice (rng : Nat) (l : List Str) : Str := l.getD (rng % l.length) []

def openingPool : AgentRole → List Str
  | AgentRole.prosecutor =>
    [chars "Ladies and gentlemen of the jury, the evidence in this case will prove beyond a reasonable doubt that the defendant is guilty of the charges brought against them.",
     chars "Members of the jury, today we will present compelling evidence that demonstrates the defendant's culpability in this matter.",
     chars "Your Honor and members of the jury, the facts of this case paint a clear picture of the defendant's guilt, which we will prove through credible evidence."]
  | AgentRole.defense =>
    [chars "Ladies and gentlemen of the jury, my client is innocent of these charges. The prosecution's case is built on speculation, not facts.",
     chars "Members of the jury, the evidence will show that the prosecution has failed to prove their case beyond a reasonable doubt.",
     chars "Your Honor and members of the jury, my client sits before you clothed in the presumption of innocence, and the prosecution has not met their burden to remove that cloak."]
  | AgentRole.judge =>
    [chars "Court is now in session. We will proceed with this matter in an orderly fashion, ensuring all parties receive due process under the law.",
     chars "This court is called to order. We are here today to ensure justice is served fairly and impartially according to the law.",
     chars "Good morning. Court is in session. We will conduct these proceedings with the dignity and respect that our legal system demands."]

def evidencePool : AgentRole → List Str
  | AgentRole.prosecutor =>
    [chars "This evidence clearly demonstrates the defendant's involvement in the alleged crime and supports the prosecution's case.",
     chars "The facts presented in this evidence speak for themselves and establish a clear pattern of the defendant's culpable conduct.",
     chars "This piece of evidence is crucial to understanding the defendant's actions and intent in this matter."]
  | AgentRole.defense =>
    [chars "This evidence is unreliable and does not prove my client's guilt. There are alternative explanations that create reasonable doubt.",
     chars "The prosecution wants you to believe this evidence proves guilt, but it actually demonstrates the weakness of their case.",
     chars "This evidence raises more questions than it answers and fails to establish my client's culpability beyond a reasonable doubt."]
  | AgentRole.judge =>
    [chars "The court will consider this evidence carefully in accordance with the rules of evidence and applicable law.",
     chars "This evidence is admitted. The jury may consider its weight and credibility in their deliberations.",
     chars "The court finds this evidence relevant and admissible under the applicable rules."]

def closingPool : AgentRole → List Str
  | AgentRole.prosecutor =>
    [chars "Based on the overwhelming evidence presented, the prosecution has proven its case beyond a reasonable doubt. I urge you to find the defendant guilty.",
     chars "The evidence in this case is clear and convincing. Justice demands that you hold the defendant accountable for their actions.",
     chars "We have met our burden of proof. The defendant's guilt has been established beyond any reasonable doubt."]
  | AgentRole.defense =>
    [chars "The prosecution has failed to prove their case beyond a reasonable doubt. My client is innocent, and I ask you to find them not guilty.",
     chars "Reasonable doubt exists throughout this case. The only just verdict is not guilty.",
     chars "The evidence does not support conviction. I urge you to uphold the presumption of innocence and find my client not guilty."]
  | AgentRole.judge =>
    [chars "After careful consideration of all evidence and applicable law, this court renders its decision based on the legal standards that govern this case.",
     chars "Having weighed all evidence presented and applied the appropriate legal standards, the court finds as follows.",
     chars "Based on the evidence presented and the applicable law, this court makes the following findings and renders judgment accordingly."]

/-- Only `DefenseAgent` overrides the cross-examination fallback; the
others inherit the deterministic base string. -/
def crossPool : AgentRole → List Str
  | AgentRole.defense =>
    [chars "This evidence is questionable at best. Can you be certain of its accuracy? Isn't it possible there are other explanations?",
     chars "The reliability of this evidence is suspect. How can the jury be sure this proves anything about my client's guilt?",
     chars "This evidence creates more doubt than certainty. Isn't it true that this could be explained in other ways?"]
  | _ =>
    [chars "I will conduct this examination according to professional standards and legal ethics."]

/-- No class overrides the objection fallback (base, deterministic). -/
def objectionPool (_ : AgentRole) : List Str :=
  [chars "I will consider this matter according to legal precedent and procedural rules."]

/-- The base general fallback, with the role string interpolated. -/
def generalPool (cls : AgentRole) : List Str :=
  [chars "As " ++ roleStr cls ++
    chars ", I will proceed according to legal protocol and professional standards."]

def _get_opening_response (cls : AgentRole) (rng : Nat) : Str :=
  pyChoice rng (openingPool cls)

def _get_evidence_response (cls : AgentRole) (rng : Nat) : Str :=
  pyChoice rng (evidencePool cls)

def _get_closing_response (cls : AgentRole) (rng : Nat) : Str :=
  pyChoice rng (closingPool cls)

def _get_objection_response (_cls : AgentRole) : Str :=
  chars "I will consider this matter according to legal precedent and procedural rules."

def _get_cross_examination_response (cls : AgentRole) (rng : Nat) : Str :=
  match cls with
  | AgentRole.defense => pyChoice rng (crossPool AgentRole.defense)
  | _ => chars "I will conduct this examination according to professional standards and legal ethics."

def _get_general_response (cls : AgentRole) : Str :=
  chars "As " ++ roleStr cls ++
    chars ", I will proceed according to legal protocol and professional standards."

/-- `BaseAgent._generate_enhanced_fallback`: category dispatch by keyword
matches in the lowered *context* (the lowered prompt is computed in the
source but never used). -/
def _generate_enhanced_fallback (cls : AgentRole) (rng : Nat)
    (_prompt context : Str) : Str :=
  let context_lower := pyLower context
  if containsSub (chars "opening") context_lower ||
      containsSub (chars "statement") context_lower ||
      containsSub (chars "begin") context_lower then
    _get_opening_response cls rng
  else if containsSub (chars "evidence") context_lower ||
      containsSub (chars "present") context_lower ||
      containsSub (chars "exhibit") context_lower then
    _get_evidence_response cls rng
  else if containsSub (chars "closing") context_lower ||
      containsSub (chars "final") context_lower ||
      containsSub (chars "argument") context_lower then
    _get_closing_response cls rng
  else if containsSub (chars "objection") context_lower ||
      containsSub (chars "rule") context_lower ||
      containsSub (chars "sustain") context_lower then
    _get_objection_response cls
  else if containsSub (chars "cross") context_lower ||
      containsSub (chars "examine") context_lower ||
      containsSub (chars "question") context_lower then
    _get_cross_examination_response cls rng
  else _get_general_response cls

/-- The per-(class, context) list of canned responses the static fallback
draws from (a singleton for the non-randomized categories). -/
def staticResponsePool (cls : AgentRole) (context : Str) : List Str :=
  let context_lower := pyLower context
  if containsSub (chars "opening") context_lower ||
      containsSub (chars "statement") context_lower ||
      containsSub (chars "begin") context_lower then
    openingPool cls
  else if containsSub (chars "evidence") context_lower ||
      containsSub (chars "present") context_lower ||
      containsSub (chars "exhibit") context_lower then
    evidencePool cls
  else if containsSub (chars "closing") context_lower ||
      containsSub (chars "final") context_lower ||
      containsSub (chars "argument") context_lower then
    closingPool cls
  else if containsSub (chars "objection") context_lower ||
      containsSub (chars "rule") context_lower ||
      containsSub (chars "sustain") context_lower then
    objectionPool cls
  else if containsSub (chars "cross") context_lower ||
      containsSub (chars "examine") context_lower ||
      containsSub (chars "question") context_lower then
    crossPool cls
  else generalPool cls

/-- The outcome of one provider attempt: an exception (with its message)
or a returned text. -/
inductive ProvOutcome where
  | throws (msg : Str)
  | returns (text : Str)
deriving DecidableEq

/-- External provider state for one `respond` call: the availability flags
set in the constructor and what each attempt would do. -/
structure ProviderEnv where
  geminiAvailable : Bool
  geminiOutcome : ProvOutcome
  ollamaAvailable : Bool
  ollamaOutcome : ProvOutcome
deriving DecidableEq

/-- `BaseAgent._enhance_prompt_with_knowledge` (prompt text assembled from
role flavor, optional case memory, context and the fixed instructions). -/
def _enhance_prompt_with_knowledge (st : AgentState) (prompt context : Str)
    (useCaseKnowledge : Bool) : Str :=
  let base :=
    chars "You are an " ++ expertiseStr st.agentClass ++ chars " " ++
    roleStr st.agentClass ++ chars " with a " ++ personalityStr st.agentClass ++
    chars " personality in a legal simulation.\nRole Context: " ++
    roleStr st.agentClass ++ chars "\nPersonality: " ++
    personalityStr st.agentClass ++ chars "\nExpertise Level: " ++
    expertiseStr st.agentClass ++ chars "\nCurrent Situation: " ++ context ++
    chars "\nRequest: " ++ prompt
  let withKnowledge :=
    match useCaseKnowledge, st.case_memory with
    | true, some mem =>
      base ++ chars "\nCase Knowledge:\n- Case Type: " ++ mem.case_type ++
      chars "\n- Complexity: " ++ mem.complexity ++
      chars "\n- Key Issues: " ++ joinList (chars ", ") mem.key_issues ++
      chars "\n- Applicable Law: " ++ joinList (chars ", ") mem.applicable_law
    | _, _ => base
  withKnowledge ++
    chars "\nInstructions:\n1. Respond authentically as this legal professional would\n2. Use appropriate legal terminology\n3. Be educational and realistic\n4. Keep response under 300 words\n5. Show legal reasoning where appropriate"

/-- One pass of the prefix-stripping loop in
`BaseAgent._post_process_response`. -/
def ppStep (pre response : Str) : Str :=
  if leadsWith pre response then
    if ((splitSep '.' response).headD []).length < 50 then
      pyStrip (joinList (chars ". ") ((splitSep '.' response).drop 1))
    else response
  else response

def _post_process_response (role response : Str) : Str :=
  let r0 := pyStrip response
  let r1 := ppStep (chars "As a " ++ role) r0
  let r2 := ppStep (chars "As the " ++ role) r1
  ppStep (chars "I am a " ++ role) r2

/-- Tier 3 of `respond`: the static fallback plus its single
`static_fallback` thought. -/
def respondStatic (st : AgentState) (rng : Nat) (ts prompt context : Str) :
    Str × AgentState :=
  let fallback := _generate_enhanced_fallback st.agentClass rng prompt context
  let st2 := think st ts (chars "Used enhanced static fallback response")
    (chars "static_fallback")
  (fallback, st2)

/-- Tier 2 of `respond`: the Ollama attempt (the `ollama_attempt` thought
is logged before the call; an exception logs `ollama_error`; sub-threshold
text falls through silently). -/
def respondOllama (st : AgentState) (env : ProviderEnv) (rng : Nat)
    (ts prompt context : Str) : Str × AgentState :=
  if env.ollamaAvailable then
    let st1 := think st ts (chars "Attempting Ollama fallback")
      (chars "ollama_attempt")
    match env.ollamaOutcome with
    | ProvOutcome.returns r =>
      if r ≠ [] ∧ (pyStrip r).length > 10 then
        let st2 := think st1 ts (chars "Generated Ollama response: " ++
          Nat.toDigits 10 r.length ++ chars " characters") (chars "ollama_success")
        (_post_process_response (roleStr st.agentClass) r, st2)
      else respondStatic st1 rng ts prompt context
    | ProvOutcome.throws msg =>
      let st2 := think st1 ts (chars "Ollama response failed: " ++ msg)
        (chars "ollama_error")
      respondStatic st2 rng ts prompt context
  else respondStatic st rng ts prompt context

/-- `BaseAgent.respond`: the `response` thought, then tier 1 (Gemini),
tier 2 (Ollama), tier 3 (static fallback).  A total function — every
provider exception is absorbed into the tier walk, never re-raised. -/
def respond (st0 : AgentState) (env : ProviderEnv) (rng : Nat)
    (ts prompt context : Str) (useCaseKnowledge : Bool) : Str × AgentState :=
  let st := think st0 ts (chars "Generating response for: " ++
    context.take 50 ++ chars "...") (chars "response")
  let _enhanced := _enhance_prompt_with_knowledge st prompt context useCaseKnowledge
  if env.geminiAvailable then
    match env.geminiOutcome with
    | ProvOutcome.returns r =>
      if r ≠ [] ∧ (pyStrip r).length > 10 then
        let st2 := think st ts (chars "Generated Gemini response: " ++
          Nat.toDigits 10 r.length ++ chars " characters") (chars "gemini_success")
        (_post_process_response (roleStr st.agentClass) r, st2)
      else respondOllama st env rng ts prompt context
    | ProvOutcome.throws msg =>
      respondOllama (think st ts (chars "Gemini response failed: " ++ msg)
        (chars "gemini_error")) env rng ts prompt context
  else respondOllama st env rng ts prompt context

/-! ### C1 and C6: the fallback behaviour of `respond` -/

/-- A tier "fails" exactly when `respond` advances past it: the provider is
unavailable, the attempt throws, or the returned text is falsy or at most
10 characters after stripping. -/
def tierFails (available : Bool) (out : ProvOutcome) : Prop :=
  available = false ∨ (∃ msg, out = ProvOutcome.throws msg) ∨
  (∃ r, out = ProvOutcome.returns r ∧ (r = [] ∨ (pyStrip r).length ≤ 10))

def isStaticFallbackThought (e : ThoughtEntry) : Bool :=
  decide (e.category = chars "static_fallback")

theorem respondOllama_fallback (st : AgentState) (env : ProviderEnv)
    (rng : Nat) (ts prompt context : Str)
    (h2 : tierFails env.ollamaAvailable env.ollamaOutcome) :
    ∃ L, respondOllama st env rng ts prompt context =
        (_generate_enhanced_fallback st.agentClass rng prompt context,
         { st with thinking_process := st.thinking_process ++ L }) ∧
      L.countP isStaticFallbackThought = 1 := by
  obtain ⟨ga, go, oa, oo⟩ := env
  dsimp only at h2
  rcases h2 with hoa | ⟨msg, hoo⟩ | ⟨r, hoo, hshort⟩
  · subst hoa
    exact ⟨[mkThought ts (chars "Used enhanced static fallback response")
        (chars "static_fallback") (roleStr st.agentClass)], rfl, rfl⟩
  · subst hoo
    cases oa with
    | false =>
      exact ⟨[mkThought ts (chars "Used enhanced static fallback response")
          (chars "static_fallback") (roleStr st.agentClass)], rfl, rfl⟩
    | true =>
      refine ⟨[mkThought ts (chars "Attempting Ollama fallback")
          (chars "ollama_attempt") (roleStr st.agentClass),
        mkThought ts (chars "Ollama response failed: " ++ msg)
          (chars "ollama_error") (roleStr st.agentClass),
        mkThought ts (chars "Used enhanced static fallback response")
          (chars "static_fallback") (roleStr st.agentClass)], ?_, rfl⟩
      simp [respondOllama, respondStatic, think, List.append_assoc]
  · subst hoo
    have hcond : ¬(r ≠ [] ∧ (pyStrip r).length > 10) := by
      rcases hshort with rfl | hlen
      · exact fun h => h.1 rfl
      · exact fun h => absurd h.2 (by omega)
    cases oa with
    | false =>
      exact ⟨[mkThought ts (chars "Used enhanced static fallback response")
          (chars "static_fallback") (roleStr st.agentClass)], rfl, rfl⟩
    | true =>
      refine ⟨[mkThought ts (chars "Attempting Ollama fallback")
          (chars "ollama_attempt") (roleStr st.agentClass),
        mkThought ts (chars "Used enhanced static fallback response")
          (chars "static_fallback") (roleStr st.agentClass)], ?_, rfl⟩
      simp [respondOllama, respondStatic, think, List.append_assoc, hcond]

/-- **C1.** `respond` never raises (it is a total function of its inputs
and the provider outcomes); whenever the Gemini attempt and the Ollama
attempt each throw, are unavailable, or return text whose stripped length
is not above the threshold, it returns the static fallback selected by
keyword match on the context, and exactly one thought with category
`static_fallback` is appended to the thinking log during the call. -/
theorem respond_static_fallback (st : AgentState) (env : ProviderEnv)
    (rng : Nat) (ts prompt context : Str) (uck : Bool)
    (h1 : tierFails env.geminiAvailable env.geminiOutcome)
    (h2 : tierFails env.ollamaAvailable env.ollamaOutcome) :
    (respond st env rng ts prompt context uck).1 =
      _generate_enhanced_fallback st.agentClass rng prompt context ∧
    ((respond st env rng ts prompt context uck).2.thinking_process.drop
        st.thinking_process.length).countP isStaticFallbackThought = 1 := by
  obtain ⟨ga, go, oa, oo⟩ := env
  dsimp only at h1 h2
  have hstep : ∀ st2 : AgentState, st2.agentClass = st.agentClass →
      ∀ L0 : List ThoughtEntry,
      st2.thinking_process = st.thinking_process ++ L0 →
      L0.countP isStaticFallbackThought = 0 →
      (respondOllama st2 ⟨ga, go, oa, oo⟩ rng ts prompt context).1 =
        _generate_enhanced_fallback st.agentClass rng prompt context ∧
      ((respondOllama st2 ⟨ga, go, oa, oo⟩ rng ts prompt
          context).2.thinking_process.drop
        st.thinking_process.length).countP isStaticFallbackThought = 1 := by
    intro st2 hcls L0 htp hcnt0
    obtain ⟨L, heq, hcnt⟩ := respondOllama_fallback st2 ⟨ga, go, oa, oo⟩
      rng ts prompt context h2
    rw [heq]
    constructor
    · rw [hcls]
    · show ((st2.thinking_process ++ L).drop st.thinking_process.length).countP
        isStaticFallbackThought = 1
      rw [htp, List.append_assoc, List.drop_left, List.countP_append,
        hcnt0, hcnt]
  rcases h1 with hga | ⟨msg1, hgo⟩ | ⟨r1, hgo, hshort1⟩
  · subst hga
    exact hstep
      (think st ts (chars "Generating response for: " ++ context.take 50 ++
        chars "...") (chars "response")) rfl
      [mkThought ts (chars "Generating response for: " ++ context.take 50 ++
        chars "...") (chars "response") (roleStr st.agentClass)] rfl rfl
  · subst hgo
    cases ga with
    | false =>
      exact hstep
        (think st ts (chars "Generating response for: " ++ context.take 50 ++
          chars "...") (chars "response")) rfl
        [mkThought ts (chars "Generating response for: " ++ context.take 50 ++
          chars "...") (chars "response") (roleStr st.agentClass)] rfl rfl
    | true =>
      refine hstep
        (think (think st ts (chars "Generating response for: " ++
            context.take 50 ++ chars "...") (chars "response")) ts
          (chars "Gemini response failed: " ++ msg1) (chars "gemini_error"))
        rfl
        [mkThought ts (chars "Generating response for: " ++ context.take 50 ++
          chars "...") (chars "response") (roleStr st.agentClass),
         mkThought ts (chars "Gemini response failed: " ++ msg1)
          (chars "gemini_error") (roleStr st.agentClass)] ?_ rfl
      simp [think, List.append_assoc]
  · subst hgo
    have hcond : ¬(r1 ≠ [] ∧ (pyStrip r1).length > 10) := by
      rcases hshort1 with rfl | hlen
      · exact fun h => h.1 rfl
      · exact fun h => absurd h.2 (by omega)
    cases ga with
    | false =>
      exact hstep
        (think st ts (chars "Generating response for: " ++ context.take 50 ++
          chars "...") (chars "response")) rfl
        [mkThought ts (chars "Generating response for: " ++ context.take 50 ++
          chars "...") (chars "response") (roleStr st.agentClass)] rfl rfl
    | true =>
      have hrew : respond st ⟨true, ProvOutcome.returns r1, oa, oo⟩ rng ts
          prompt context uck =
          respondOllama (think st ts (chars "Generating response for: " ++
            context.take 50 ++ chars "...") (chars "response"))
            ⟨true, ProvOutcome.returns r1, oa, oo⟩ rng ts prompt context := by
        simp only [respond]
        rw [if_neg hcond]
        simp
      rw [hrew]
      exact hstep
        (think st ts (chars "Generating response for: " ++ context.take 50 ++
          chars "...") (chars "response")) rfl
        [mkThought ts (chars "Generating response for: " ++ context.take 50 ++
          chars "...") (chars "response") (roleStr st.agentClass)] rfl rfl

/-- Witness for C1: a prosecutor agent with both tiers unavailable, asked
for an opening statement. -/
theorem respond_static_fallback_witness :
    (respond (mkAgent AgentRole.prosecutor)
        ⟨false, ProvOutcome.returns [], false, ProvOutcome.returns []⟩ 0
        (chars "10:00:00") (chars "p") (chars "prosecution opening statement")
        true).1 =
      _generate_enhanced_fallback (mkAgent AgentRole.prosecutor).agentClass 0
        (chars "p") (chars "prosecution opening statement") ∧
    ((respond (mkAgent AgentRole.prosecutor)
        ⟨false, ProvOutcome.returns [], false, ProvOutcome.returns []⟩ 0
        (chars "10:00:00") (chars "p") (chars "prosecution opening statement")
        true).2.thinking_process.drop
          (mkAgent AgentRole.prosecutor).thinking_process.length).countP
        isStaticFallbackThought = 1 :=
  respond_static_fallback (mkAgent AgentRole.prosecutor)
    ⟨false, ProvOutcome.returns [], false, ProvOutcome.returns []⟩ 0
    (chars "10:00:00") (chars "p") (chars "prosecution opening statement")
    true (Or.inl rfl) (Or.inl rfl)

/-- Counterexample to **C6** as stated: the prosecutor static-fallback
opening picks among three canned responses with `random.choice`, so two
invocations with identical role/prompt/context inputs (but different RNG
draws) return different strings — the static tier is not a pure function
of those inputs. -/
theorem static_fallback_not_input_determined :
    _generate_enhanced_fallback AgentRole.prosecutor 0 [] (chars "opening") ≠
      _generate_enhanced_fallback AgentRole.prosecutor 1 [] (chars "opening") := by
  decide

theorem pyChoice_mem {l : List Str} (h : l ≠ []) (rng : Nat) :
    pyChoice rng l ∈ l := by
  rw [pyChoice]
  have hmod : rng % l.length < l.length :=
    Nat.mod_lt _ (List.length_pos.mpr h)
  rw [List.getD_eq_getElem l [] hmod]
  exact List.getElem_mem hmod

theorem pyChoice_singleton (rng : Nat) (x : Str) : pyChoice rng [x] = x := by
  rw [pyChoice]
  simp [Nat.mod_one]

/-- **C6 (amended).** The static tier is deterministic only given the RNG
draw: for every role and context/prompt pair the fallback response equals
the RNG-selected element of a fixed per-role, per-category list of canned
responses (a singleton for the categories no class randomizes), so the
response always lies in that fixed list, and two invocations agree exactly
when the RNG selects the same element. -/
theorem static_fallback_pool_membership (cls : AgentRole) (rng : Nat)
    (prompt context : Str) :
    _generate_enhanced_fallback cls rng prompt context =
      pyChoice rng (staticResponsePool cls context) ∧
    _generate_enhanced_fallback cls rng prompt context ∈
      staticResponsePool cls context := by
  have hne : staticResponsePool cls context ≠ [] := by
    rw [staticResponsePool]
    split_ifs <;> cases cls <;> decide
  have heq : _generate_enhanced_fallback cls rng prompt context =
      pyChoice rng (staticResponsePool cls context) := by
    rw [_generate_enhanced_fallback, staticResponsePool]
    split_ifs
    · rfl
    · rfl
    · rfl
    · exact (pyChoice_singleton rng _).symm
    · cases cls
      · exact (pyChoice_singleton rng _).symm
      · rfl
      · exact (pyChoice_singleton rng _).symm
    · exact (pyChoice_singleton rng _).symm
  exact ⟨heq, heq ▸ pyChoice_mem hne rng⟩

/-! ### C8 and C9: case analysis and memory hygiene -/

/-- **C8.** Complexity assessment returns `high` exactly when at least two
of the three factors hold, `medium` exactly when exactly one holds, and
`low` exactly when none holds, where the factors are: description longer
than 500 characters, multi-party structure, and case type in the
inherently-complex set `{constitutional, corporate}`. -/
theorem assess_complexity_thresholds (cd : CaseData) :
    (_assess_complexity cd = chars "high" ↔
      ((cd.description.length > 500 ∧ cd.multiple_parties = true) ∨
       (cd.description.length > 500 ∧
         (cd.case_type = some (chars "constitutional") ∨
          cd.case_type = some (chars "corporate"))) ∨
       (cd.multiple_parties = true ∧
         (cd.case_type = some (chars "constitutional") ∨
          cd.case_type = some (chars "corporate"))))) ∧
    (_assess_complexity cd = chars "medium" ↔
      ((cd.description.length > 500 ∧ cd.multiple_parties = false ∧
         ¬(cd.case_type = some (chars "constitutional") ∨
           cd.case_type = some (chars "corporate"))) ∨
       (¬(cd.description.length > 500) ∧ cd.multiple_parties = true ∧
         ¬(cd.case_type = some (chars "constitutional") ∨
           cd.case_type = some (chars "corporate"))) ∨
       (¬(cd.description.length > 500) ∧ cd.multiple_parties = false ∧
         (cd.case_type = some (chars "constitutional") ∨
          cd.case_type = some (chars "corporate"))))) ∧
    (_assess_complexity cd = chars "low" ↔
      (¬(cd.description.length > 500) ∧ cd.multiple_parties = false ∧
       ¬(cd.case_type = some (chars "constitutional") ∨
         cd.case_type = some (chars "corporate")))) := by
  by_cases h1 : cd.description.length > 500 <;>
    by_cases h2 : cd.multiple_parties = true <;>
      by_cases h3 : cd.case_type = some (chars "constitutional") ∨
          cd.case_type = some (chars "corporate") <;>
        simp [_assess_complexity, h1, h2, h3] <;>
        decide

/-- **C9.** `clear_memory` empties the case memory, the thinking log and
the per-evidence analysis map; a subsequent `analyze_case` yields an
analysis that is a function of the agent class and the supplied case only
(no residue from any prior state or timestamps), and its key-issues list
depends only on the new case description and case type. -/
theorem clear_memory_no_residue (st st2 : AgentState) (ts ts2 : Str)
    (cd cd2 : CaseData)
    (hcls : st.agentClass = st2.agentClass)
    (hdesc : cd.description = cd2.description)
    (htype : cd.case_type = cd2.case_type) :
    (clear_memory st).thinking_process = [] ∧
    (clear_memory st).case_memory = none ∧
    (clear_memory st).evidence_analysis = [] ∧
    (analyze_case (clear_memory st) ts cd).1 = (analyze_case st2 ts2 cd).1 ∧
    (analyze_case (clear_memory st) ts cd).1.key_issues =
      (analyze_case (clear_memory st) ts2 cd2).1.key_issues := by
  refine ⟨rfl, rfl, rfl, ?_, ?_⟩
  · simp [analyze_case, clear_memory, hcls]
  · simp [analyze_case, clear_memory, _identify_key_issues, hdesc, htype]

/-- Witness for C9: a used prosecutor agent, cleared, re-analyzing a
criminal theft case. -/
theorem clear_memory_no_residue_witness :
    (clear_memory (mkAgent AgentRole.prosecutor)).thinking_process = [] ∧
    (clear_memory (mkAgent AgentRole.prosecutor)).case_memory = none ∧
    (clear_memory (mkAgent AgentRole.prosecutor)).evidence_analysis = [] ∧
    (analyze_case (clear_memory (mkAgent AgentRole.prosecutor))
          (chars "10:00:00")
          ⟨chars "T", chars "theft of goods", some (chars "criminal"),
            false, false⟩).1 =
      (analyze_case (mkAgent AgentRole.prosecutor) (chars "11:00:00")
          ⟨chars "T", chars "theft of goods", some (chars "criminal"),
            false, false⟩).1 ∧
    (analyze_case (clear_memory (mkAgent AgentRole.prosecutor))
          (chars "10:00:00")
          ⟨chars "T", chars "theft of goods", some (chars "criminal"),
            false, false⟩).1.key_issues =
      (analyze_case (clear_memory (mkAgent AgentRole.prosecutor))
          (chars "11:00:00")
          ⟨chars "T", chars "theft of goods", some (chars "criminal"),
            false, false⟩).1.key_issues :=
  clear_memory_no_residue (mkAgent AgentRole.prosecutor)
    (mkAgent AgentRole.prosecutor) (chars "10:00:00") (chars "11:00:00")
    ⟨chars "T", chars "theft of goods", some (chars "criminal"), false, false⟩
    ⟨chars "T", chars "theft of goods", some (chars "criminal"), false, false⟩
    rfl rfl rfl

end Jurix
